import Mathlib

set_option autoImplicit false

/-!
Shallow embedding of the request-queue and authorization state machine of the
qsb-wallet browser extension: the background `State` class
(pending-request tables, durable authorization store) and the `Extension`
command handlers that resolve pending requests.

JavaScript `Record<string, V>` objects are modelled as insertion-ordered
association lists `List (String × V)`: lookup returns the first binding,
assignment to an existing key keeps its position, assignment to a fresh key
appends, and `delete` removes the binding.
-/

namespace QSB

variable {α : Type}

/-- First value bound to key `k` (JS property read `obj[k]`). -/
def lookupA (l : List (String × α)) (k : String) : Option α :=
  (l.find? (fun p => p.1 = k)).map (fun p => p.2)

/-- JS `delete obj[k]`. -/
def eraseA (l : List (String × α)) (k : String) : List (String × α) :=
  l.filter (fun p => p.1 ≠ k)

/-- JS `obj[k] = v`: overwrite in place when the key exists, append otherwise. -/
def upsertA (l : List (String × α)) (k : String) (v : α) : List (String × α) :=
  if (l.find? (fun p => p.1 = k)).isSome then
    l.map (fun p => if p.1 = k then (k, v) else p)
  else
    l ++ [(k, v)]

/-! ### Data model (from `State.ts` / `types.ts`)

`AuthUrlInfo` is the durable authorization entry for a normalized origin.
The `id` field records the normalized origin string (`idStr`) that produced
the entry, matching `authComplete` in the source. -/

structure AuthUrlInfo where
  authorizedAccounts : List String
  authorizedDids : List String
  count : Nat
  id : String
  origin : String
  url : String
deriving Repr, DecidableEq

/-- Pending site-authorization request (`AuthRequest` in `State.ts`). -/
structure AuthRequest where
  id : String
  idStr : String
  origin : String
  url : String
deriving Repr, DecidableEq

/-- Chain metadata definition; only the fields the broker inspects. -/
structure MetadataDef where
  genesisHash : String
  specVersion : Nat
deriving Repr, DecidableEq

/-- Pending metadata-registration request (`MetaRequest`). -/
structure MetaRequest where
  id : String
  request : MetadataDef
  url : String
deriving Repr, DecidableEq

/-- Pending transaction/message signing request (`SignRequest`). The payload
of `RequestSign` is abstracted to the byte string to sign. -/
structure SignRequest where
  accountAddress : String
  id : String
  payload : String
  url : String
deriving Repr, DecidableEq

/-- Pending DID signing request (`DidSignRequest`). -/
structure DidSignRequest where
  did : String
  id : String
  name : Option String
  payload : String
  url : String
deriving Repr, DecidableEq

/-- `AuthResponse` returned to the content script by `authorizeUrl`. -/
structure AuthResponse where
  result : Bool
  authorizedAccounts : List String
  authorizedDids : List String
deriving Repr, DecidableEq

/-- The error taxonomy: each constructor stands for one distinct thrown
`Error` (or raw TypeError) message in the source. -/
inductive Err where
  | invalidUrl
  | duplicateRequest
  | notAllowed
  | notFound
  | unableToFindPair
  | passwordNeeded
  | unableToDecode
  | didNotFound
  | wrongDidPassword
  | cancelled
  | rejected
  | typeError
deriving Repr, DecidableEq

/-- Outcome of one resolution command: the command threw before invoking any
captured continuation, or it invoked the captured reject, or the captured
resolve with result `r`. -/
inductive Outcome (ρ : Type) where
  | threw (e : Err)
  | rejectedWith (e : Err)
  | resolved (r : ρ)
deriving Repr, DecidableEq

/-- The background `State`: the four pending tables, the in-memory
authorization store and default-account selection, their durable copies
(`localStorage` under `authUrls` / `defaultAuthAccounts`), the metadata store
and runtime registry, the id counter and a count of notification-popup opens. -/
structure State where
  authUrls : List (String × AuthUrlInfo)
  authRequests : List (String × AuthRequest)
  metaRequests : List (String × MetaRequest)
  signRequests : List (String × SignRequest)
  didSignRequests : List (String × DidSignRequest)
  defaultAuthAccountSelection : List String
  storedAuthUrls : List (String × AuthUrlInfo)
  storedDefaultAuthAccounts : List String
  metaStore : List (String × MetadataDef)
  registry : List MetadataDef
  nextId : Nat
  popupOpenCount : Nat
deriving Repr, DecidableEq

/-- JS `url.split('/')` on the character list (split at every `/`). -/
def splitOnSlash : List Char → List (List Char)
  | [] => [[]]
  | c :: rest =>
    let r := splitOnSlash rest
    if c = '/' then [] :: r
    else
      match r with
      | [] => [[c]]
      | h :: t => (c :: h) :: t

/-- `p` is a prefix of `s` (JS `s.startsWith(p)`). -/
def strHasPre (s p : String) : Bool := p.data.isPrefixOf s.data

/-- `stripUrl` URL scheme guard: `http:`, `https:`, `ipfs:`, `ipns:`. -/
def validScheme (url : String) : Bool :=
  strHasPre url "http:" || strHasPre url "https:" || strHasPre url "ipfs:" ||
    strHasPre url "ipns:"

/-- Authority part of the url: `url.split('/')[2]` (a JS `undefined` index
coerces to the property key `"undefined"`). -/
def stripUrlRaw (url : String) : String :=
  match (splitOnSlash url.data).get? 2 with
  | some l => String.mk l
  | none => "undefined"

/-- `State.stripUrl`: asserts the scheme, then takes the authority part. -/
def stripUrl (url : String) : Except Err String :=
  if url ≠ "" ∧ validScheme url then .ok (stripUrlRaw url) else .error .invalidUrl

/-- `State.getAuthRequest`. -/
def getAuthRequest (s : State) (id : String) : Option AuthRequest :=
  lookupA s.authRequests id

/-- `State.getMetaRequest`. -/
def getMetaRequest (s : State) (id : String) : Option MetaRequest :=
  lookupA s.metaRequests id

/-- `State.getSignRequest`. -/
def getSignRequest (s : State) (id : String) : Option SignRequest :=
  lookupA s.signRequests id

/-- `State.getDidSignRequest`. -/
def getDidSignRequest (s : State) (id : String) : Option DidSignRequest :=
  lookupA s.didSignRequests id

/-- `State.updateDefaultAuthAccounts`: replace the selection and persist it. -/
def updateDefaultAuthAccounts (s : State) (newList : List String) : State :=
  { s with defaultAuthAccountSelection := newList,
           storedDefaultAuthAccounts := newList }

/-- Body of the `complete` closure in `State.authComplete`: write the
authorization entry for the request's origin, persist the list, replace the
default account selection, delete the pending entry. Reading a deleted id
is the JS TypeError on destructuring `undefined`. -/
def authComplete (s : State) (id : String)
    (authorizedAccounts authorizedDids : List String) : State × Option Err :=
  match lookupA s.authRequests id with
  | none => (s, some .typeError)
  | some req =>
    let key := stripUrlRaw req.url
    let info : AuthUrlInfo :=
      { authorizedAccounts := authorizedAccounts
        authorizedDids := authorizedDids
        count := 0
        id := req.idStr
        origin := req.origin
        url := req.url }
    let newUrls := upsertA s.authUrls key info
    (updateDefaultAuthAccounts
      { s with authUrls := newUrls
               storedAuthUrls := newUrls
               authRequests := eraseA s.authRequests id }
      authorizedAccounts, none)

/-- The captured reject continuation of a pending authorize request:
`complete()` with both lists defaulted to `[]`, then reject the caller. -/
def authRequestReject (s : State) (id : String) : State × Option Err :=
  authComplete s id [] []

/-- `Extension.authorizeApprove`: look up the queued request (`assert`
throws `NotFound` when absent) and invoke its captured resolve with
`result: true`. -/
def authorizeApprove (s : State) (id : String)
    (authorizedAccounts authorizedDids : List String) : State × Outcome AuthResponse :=
  match lookupA s.authRequests id with
  | none => (s, .threw .notFound)
  | some _ =>
    ((authComplete s id authorizedAccounts authorizedDids).1,
      .resolved { result := true
                  authorizedAccounts := authorizedAccounts
                  authorizedDids := authorizedDids })

/-- `State.deleteAuthRequest`: drop the pending entry without invoking any
captured continuation; silently a no-op on an unknown id. -/
def deleteAuthRequest (s : State) (requestId : String) : State :=
  { s with authRequests := eraseA s.authRequests requestId }

/-- Result of `State.authorizeUrl`: the returned promise is either already
resolved (`immediate`), or pending with a fresh queued id (`enqueued`), or
the call threw. -/
inductive AuthorizeOutcome where
  | threw (e : Err)
  | immediate (r : AuthResponse)
  | enqueued (id : String)
deriving Repr, DecidableEq

/-- `State.authorizeUrl`: strip the url, refuse a duplicate pending request
for the same origin, short-circuit when the store already has an entry for
the origin (its `authorizedAccounts` list is always truthy), otherwise
enqueue a pending request and open the notification popup. -/
def authorizeUrl (s : State) (url origin : String) : State × AuthorizeOutcome :=
  match stripUrl url with
  | .error e => (s, .threw e)
  | .ok idStr =>
    if s.authRequests.any (fun p => p.2.idStr = idStr) then
      (s, .threw .duplicateRequest)
    else
      match lookupA s.authUrls idStr with
      | some _ =>
        (s, .immediate { result := false, authorizedAccounts := [], authorizedDids := [] })
      | none =>
        let id := toString s.nextId
        ({ s with nextId := s.nextId + 1
                  authRequests := s.authRequests ++
                    [(id, { id := id, idStr := idStr, origin := origin, url := url })]
                  popupOpenCount := s.popupOpenCount + 1 },
          .enqueued id)

/-- `State.removeAuthorization`: delete the store entry, failing with
`NotFound` (`The source ... is not known`) when absent. -/
def removeAuthorization (s : State) (url : String) : State × Option Err :=
  match lookupA s.authUrls url with
  | none => (s, some .notFound)
  | some _ =>
    let newUrls := eraseA s.authUrls url
    ({ s with authUrls := newUrls, storedAuthUrls := newUrls }, none)

/-! ### Metadata flow (`State.injectMetadata`, `Extension.metadataApprove` /
`metadataReject`, `State.saveMetadata`) -/

/-- `State.injectMetadata`: enqueue a metadata request and open the popup. -/
def injectMetadata (s : State) (url : String) (request : MetadataDef) : State × String :=
  let id := toString s.nextId
  ({ s with nextId := s.nextId + 1
            metaRequests := s.metaRequests ++ [(id, { id := id, request := request, url := url })]
            popupOpenCount := s.popupOpenCount + 1 },
    id)

/-- `State.saveMetadata`: persist into the metadata store keyed by genesis
hash and register in the runtime metadata registry (`addMetadata`). -/
def saveMetadata (s : State) (meta : MetadataDef) : State :=
  { s with metaStore := upsertA s.metaStore meta.genesisHash meta
           registry := s.registry ++ [meta] }

/-- `Extension.metadataApprove`: `assert` the queued request, persist the
definition, then invoke the captured resolve; the resolve deletes the entry
(`metaComplete`). -/
def metadataApprove (s : State) (id : String) : State × Outcome Bool :=
  match lookupA s.metaRequests id with
  | none => (s, .threw .notFound)
  | some q =>
    ({ saveMetadata s q.request with metaRequests := eraseA s.metaRequests id },
      .resolved true)

/-- `Extension.metadataReject`: `assert` the queued request, then invoke the
captured reject with `Rejected`; the reject deletes the entry. -/
def metadataReject (s : State) (id : String) : State × Outcome Bool :=
  match lookupA s.metaRequests id with
  | none => (s, .threw .notFound)
  | some _ =>
    ({ s with metaRequests := eraseA s.metaRequests id }, .rejectedWith .rejected)

/-! ### Signing flow (`Extension.signingApprovePassword` and friends)

The keyring and the opaque signing capability are external collaborators.
A keyring pair carries its lock flag and the password that decrypts it:
`decodePkcs8 p` succeeds exactly when `p` is that password, and throws
otherwise. -/

/-- A keyring pair as the signing flow observes it. `address` is the
default-prefix-encoded address used as the unlock-cache key, which may
differ from the lookup key used by the request. -/
structure KPair where
  address : String
  isLocked : Bool
  password : String
deriving Repr, DecidableEq

/-- Modelled from the spec: the opaque signing capability
(`request.sign(registry, pair)`), an abstract deterministic function of the
signing identity and the payload. -/
def signWith (identity payload : String) : String :=
  "sig:" ++ identity ++ ":" ++ payload

/-- Modelled from the spec: the password-cache window
(`PASSWORD_EXPIRY_MS` from `extension-base/defaults`). -/
def PASSWORD_EXPIRY_MS : Int := 15 * 60 * 1000

/-- The mutable context of the `Extension` command handler: the background
state, the external keyring (keyed by account address), the transient
unlock cache mapping cache addresses to expiry timestamps, the DID store
(keyed by `did:`-prefixed identifier, holding each DID pair's password),
and the current clock. -/
structure ExtCtx where
  st : State
  keyring : List (String × KPair)
  cachedUnlocks : List (String × Int)
  didsStore : List (String × String)
  now : Int
deriving Repr, DecidableEq

/-- `Extension.refreshAccountPasswordCache`: lazily expire the unlock cache;
on expiry zero the entry and lock the pair. Returns the pair as it is after
the refresh together with the updated cache. -/
def refreshAccountPasswordCache (cachedUnlocks : List (String × Int)) (now : Int)
    (pair : KPair) : KPair × List (String × Int) :=
  let savedExpiry := (lookupA cachedUnlocks pair.address).getD 0
  if savedExpiry - now < 0 then
    ({ pair with isLocked := true }, upsertA cachedUnlocks pair.address 0)
  else
    (pair, cachedUnlocks)

/-- `Extension.signingApprovePassword`. Paths, in source order: `assert`
`NotFound` on an unknown id; captured reject (entry removed) when the
keyring pair is missing; refresh the unlock cache; captured reject when the
pair is locked and the password empty (the code then falls through);
`pair.decodePkcs8(password)` throws out of the handler on a wrong password,
leaving the entry queued; otherwise sign, cache or re-lock, and resolve.
The outcome records the first continuation invoked (a JS promise ignores a
second settle). -/
def signingApprovePassword (c : ExtCtx) (id password : String) (savePass : Bool) :
    ExtCtx × Outcome (String × String) :=
  match lookupA c.st.signRequests id with
  | none => (c, .threw .notFound)
  | some q =>
    match lookupA c.keyring q.accountAddress with
    | none =>
      ({ c with st := { c.st with signRequests := eraseA c.st.signRequests id } },
        .rejectedWith .unableToFindPair)
    | some pair0 =>
      let pair := (refreshAccountPasswordCache c.cachedUnlocks c.now pair0).1
      let c1 : ExtCtx :=
        { c with keyring := upsertA c.keyring q.accountAddress pair
                 cachedUnlocks := (refreshAccountPasswordCache c.cachedUnlocks c.now pair0).2 }
      let c2 : ExtCtx :=
        if pair.isLocked = true ∧ password = "" then
          { c1 with st := { c1.st with signRequests := eraseA c1.st.signRequests id } }
        else c1
      if pair.isLocked = true ∧ password ≠ pair.password then
        (c2,
          if pair.isLocked = true ∧ password = "" then .rejectedWith .passwordNeeded
          else .threw .unableToDecode)
      else
        let c3 : ExtCtx :=
          if savePass then
            { c2 with cachedUnlocks := upsertA c2.cachedUnlocks pair.address
                        (c2.now + PASSWORD_EXPIRY_MS) }
          else
            { c2 with keyring := upsertA c2.keyring q.accountAddress
                        { pair with isLocked := true } }
        ({ c3 with st := { c3.st with signRequests := eraseA c3.st.signRequests id } },
          if pair.isLocked = true ∧ password = "" then .rejectedWith .passwordNeeded
          else .resolved (id, signWith pair.address q.payload))

/-- `Extension.signingApproveSignature`: `assert` the queued request, then
resolve it with the externally produced signature. -/
def signingApproveSignature (s : State) (id signature : String) :
    State × Outcome (String × String) :=
  match lookupA s.signRequests id with
  | none => (s, .threw .notFound)
  | some _ =>
    ({ s with signRequests := eraseA s.signRequests id }, .resolved (id, signature))

/-- `Extension.signingCancel`: `assert` the queued request, then invoke its
captured reject with `Cancelled`. -/
def signingCancel (s : State) (id : String) : State × Outcome (String × String) :=
  match lookupA s.signRequests id with
  | none => (s, .threw .notFound)
  | some _ =>
    ({ s with signRequests := eraseA s.signRequests id }, .rejectedWith .cancelled)

/-- `State.sign`: enqueue a signing request and open the popup. -/
def sign (s : State) (url : String) (payload accountAddress : String) : State × String :=
  let id := toString s.nextId
  ({ s with nextId := s.nextId + 1
            signRequests := s.signRequests ++
              [(id, { accountAddress := accountAddress, id := id, payload := payload, url := url })]
            popupOpenCount := s.popupOpenCount + 1 },
    id)

/-- `State.didSign`: enqueue a DID signing request and open the popup. -/
def didSign (s : State) (url : String) (payload did : String) (name : Option String) :
    State × String :=
  let id := toString s.nextId
  ({ s with nextId := s.nextId + 1
            didSignRequests := s.didSignRequests ++
              [(id, { did := did, id := id, name := name, payload := payload, url := url })]
            popupOpenCount := s.popupOpenCount + 1 },
    id)

/-- `Extension.didsSignApprove`: `assert` the queued request (`NotFound`);
the DID-store lookup miss rejects the inner promise, so the handler throws
`DID not found` without touching the queue; a wrong DID password invokes the
captured reject (entry removed); otherwise sign with the DID pair and
resolve (entry removed). -/
def didsSignApprove (c : ExtCtx) (id password : String) :
    ExtCtx × Outcome (String × String) :=
  match lookupA c.st.didSignRequests id with
  | none => (c, .threw .notFound)
  | some q =>
    match lookupA c.didsStore ("did:" ++ q.did) with
    | none => (c, .threw .didNotFound)
    | some didPassword =>
      if password ≠ didPassword then
        ({ c with st := { c.st with didSignRequests := eraseA c.st.didSignRequests id } },
          .rejectedWith .wrongDidPassword)
      else
        ({ c with st := { c.st with didSignRequests := eraseA c.st.didSignRequests id } },
          .resolved (id, signWith ("did:" ++ q.did) q.payload))

/-- `Extension.didsSignCancel`: `assert` the queued request, then invoke its
captured reject with `Cancelled`. -/
def didsSignCancel (s : State) (id : String) : State × Outcome (String × String) :=
  match lookupA s.didSignRequests id with
  | none => (s, .threw .notFound)
  | some _ =>
    ({ s with didSignRequests := eraseA s.didSignRequests id }, .rejectedWith .cancelled)

/-! ### Authorization updates (`State.updateAuthorizedAccounts`,
`Extension.accountsForget`) -/

/-- In-place update of the value at key `u` (JS `obj[u].field = v`). -/
def assignA (l : List (String × α)) (u : String) (f : α → α) : List (String × α) :=
  l.map (fun p => if p.1 = u then (p.1, f p.2) else p)

/-- The `forEach` body of `State.updateAuthorizedAccounts`: assign the new
lists into the entry for each origin in turn. Reading a missing origin is a
raw TypeError: the loop stops there, keeping the mutations already made.
Returns the mutated map and whether the loop threw. -/
def applyAuthDiff (urls : List (String × AuthUrlInfo)) :
    List (String × List String × Option (List String)) →
      List (String × AuthUrlInfo) × Bool
  | [] => (urls, false)
  | (url, accounts, dids) :: rest =>
    match lookupA urls url with
    | none => (urls, true)
    | some _ =>
      applyAuthDiff
        (assignA urls url (fun info =>
          { info with authorizedAccounts := accounts
                      authorizedDids := dids.getD info.authorizedDids }))
        rest

/-- `State.updateAuthorizedAccounts`: apply the diff in memory, then persist
the whole list — unless the loop threw, in which case the durable write
never runs and the in-memory map keeps the partial mutations. -/
def updateAuthorizedAccounts (s : State)
    (diff : List (String × List String × Option (List String))) : State × Option Err :=
  match applyAuthDiff s.authUrls diff with
  | (urls, true) => ({ s with authUrls := urls }, some .typeError)
  | (urls, false) => ({ s with authUrls := urls, storedAuthUrls := urls }, none)

/-- The diff `Extension.accountsForget` builds: one entry per stored origin
whose account list mentions the address, with the address filtered out. -/
def forgetDiff (s : State) (address : String) :
    List (String × List String × Option (List String)) :=
  s.authUrls.filterMap (fun p =>
    if address ∈ p.2.authorizedAccounts then
      some (p.1, p.2.authorizedAccounts.filter (fun a => a ≠ address),
        (none : Option (List String)))
    else none)

/-- `Extension.accountsForget`: build the diff of every entry listing the
address, apply it, then filter the address out of the default selection.
(`keyring.forgetAccount` acts on the external keyring only.) -/
def accountsForget (s : State) (address : String) : State × Option Err :=
  match updateAuthorizedAccounts s (forgetDiff s address) with
  | (s1, some e) => (s1, some e)
  | (s1, none) =>
    (updateDefaultAuthAccounts s1
      (s1.defaultAuthAccountSelection.filter (fun a => a ≠ address)), none)

/-! ### Startup metadata reconciliation (`extractMetadata`) -/

/-- The accumulator record of `extractMetadata`'s `defs` object. -/
structure BestDef where
  best : MetadataDef
  index : Nat
  key : String
deriving Repr, DecidableEq

/-- `knownEntries.find(([, hashes]) => hashes.includes(genesisHash))`. -/
def famLookup (knownEntries : List (String × List String)) (h : String) :
    Option (String × List String) :=
  knownEntries.find? (fun e => e.2.contains h)

/-- One iteration of the `forEach` over the stored map inside
`extractMetadata`. -/
def extractStep (knownEntries : List (String × List String))
    (acc : List (String × BestDef) × List String) (kv : String × MetadataDef) :
    List (String × BestDef) × List String :=
  match famLookup knownEntries kv.2.genesisHash with
  | some (name, hashes) =>
    let index := hashes.findIdx (fun x => x == kv.2.genesisHash)
    match lookupA acc.1 name with
    | none => (upsertA acc.1 name { best := kv.2, index := index, key := kv.1 }, acc.2)
    | some b =>
      if b.index > index then
        (upsertA acc.1 name { best := kv.2, index := index, key := kv.1 }, acc.2 ++ [b.key])
      else acc
  | none => (upsertA acc.1 kv.1 { best := kv.2, index := 0, key := kv.1 }, acc.2)

/-- The scan phase of `extractMetadata`: fold the stored map into the
flattened `defs` object and the `removals` list. -/
def extractScan (knownEntries : List (String × List String))
    (map : List (String × MetadataDef)) : List (String × BestDef) × List String :=
  map.foldl (extractStep knownEntries) ([], [])

/-- `extractMetadata`: returns the store map after the removals have been
applied, and the definitions passed to `addMetadata` in order. -/
def extractMetadata (knownEntries : List (String × List String))
    (map : List (String × MetadataDef)) :
    List (String × MetadataDef) × List MetadataDef :=
  let scanned := extractScan knownEntries map
  (scanned.2.foldl (fun st k => eraseA st k) map, scanned.1.map (fun p => p.2.best))

/-- The family (known-genesis name) a genesis hash belongs to, per the first
`knownGenesis` entry listing it. -/
def famName (knownEntries : List (String × List String)) (h : String) : Option String :=
  (famLookup knownEntries h).map (fun e => e.1)

/-- The genesis index of a hash within its family (`hashes.indexOf`). -/
def famIdx (knownEntries : List (String × List String)) (h : String) : Nat :=
  match famLookup knownEntries h with
  | some e => e.2.findIdx (fun x => x == h)
  | none => 0

/-- No stored entry that is outside every known family has a store key equal
to the family name of some stored entry: under this side condition the
`defs` object of `extractMetadata` never conflates an unknown entry with a
known family. -/
def NoCollision (knownEntries : List (String × List String))
    (map : List (String × MetadataDef)) : Prop :=
  ∀ p ∈ map, famName knownEntries p.2.genesisHash = none →
    ∀ p2 ∈ map, famName knownEntries p2.2.genesisHash ≠ some p.1

/-- Loop invariant of the `forEach` scan in `extractMetadata`, over the
processed prefix: (i) every `defs` binding records a processed entry,
either a known one filed under its family name at its family index, or an
unknown one filed under its own key at index 0; (ii) every processed entry
of a known family has a best binding of minimal index so far; (iii) every
removal names a processed entry strictly superseded by another processed
entry of the same family. -/
def ScanInv (knownEntries : List (String × List String))
    (processed : List (String × MetadataDef))
    (defs : List (String × BestDef)) (removals : List String) : Prop :=
  (∀ name b, lookupA defs name = some b →
    (b.key, b.best) ∈ processed ∧
    ((famName knownEntries b.best.genesisHash = some name ∧
      b.index = famIdx knownEntries b.best.genesisHash) ∨
     (famName knownEntries b.best.genesisHash = none ∧ name = b.key ∧ b.index = 0))) ∧
  (∀ p ∈ processed, ∀ name, famName knownEntries p.2.genesisHash = some name →
    ∃ b, lookupA defs name = some b ∧
      famName knownEntries b.best.genesisHash = some name ∧
      b.index = famIdx knownEntries b.best.genesisHash ∧
      (b.key, b.best) ∈ processed ∧
      b.index ≤ famIdx knownEntries p.2.genesisHash) ∧
  (∀ r ∈ removals, ∃ d name p2, (r, d) ∈ processed ∧
    famName knownEntries d.genesisHash = some name ∧
    p2 ∈ processed ∧ famName knownEntries p2.2.genesisHash = some name ∧
    famIdx knownEntries p2.2.genesisHash < famIdx knownEntries d.genesisHash)

/-- The known-genesis fixture: one family with two hashes, `h0` canonical. -/
def ceKnown : List (String × List String) := [("polkadot", ["h0", "h1"])]

/-- A stored metadata map iterated best-entry-first. -/
def ceMap : List (String × MetadataDef) :=
  [("h0", { genesisHash := "h0", specVersion := 5 }),
   ("h1", { genesisHash := "h1", specVersion := 4 })]

/-- The same stored map iterated superseded-entry-first. -/
def ceMapB : List (String × MetadataDef) :=
  [("h1", { genesisHash := "h1", specVersion := 4 }),
   ("h0", { genesisHash := "h0", specVersion := 5 })]


/-- `Outcome.settled` is true when a resolution command invoked the captured
resolve or reject continuation (as opposed to throwing beforehand). -/
def Outcome.settled {ρ : Type} : Outcome ρ → Bool
  | .threw _ => false
  | .rejectedWith _ => true
  | .resolved _ => true

/-! ### Concrete fixtures used by the witnesses below -/

/-- A quiescent background state: empty tables, one default-selected account. -/
def baseState : State :=
  { authUrls := [], authRequests := [], metaRequests := [], signRequests := []
    didSignRequests := [], defaultAuthAccountSelection := ["A"]
    storedAuthUrls := [], storedDefaultAuthAccounts := ["A"]
    metaStore := [], registry := [], nextId := 7, popupOpenCount := 0 }

/-- A pending authorization request fixture. -/
def reqA : AuthRequest :=
  { id := "7", idStr := "site.example", origin := "Site", url := "https://site.example/app" }

/-- A pending signing request fixture. -/
def qSign : SignRequest :=
  { accountAddress := "acc", id := "1", payload := "0xdead", url := "https://site.example/app" }

/-- A pending DID signing request fixture. -/
def qDid : DidSignRequest :=
  { did := "qsb:abc", id := "2", name := none, payload := "0xbeef"
    url := "https://site.example/app" }

/-- A pending metadata request fixture. -/
def qMeta : MetaRequest :=
  { id := "3", request := { genesisHash := "h0", specVersion := 5 }
    url := "https://site.example/app" }

/-- A locked keyring pair whose password is `pw`. -/
def pairAcc : KPair := { address := "encAcc", isLocked := true, password := "pw" }

/-- A state with one pending request of each kind. -/
def busyState : State :=
  { baseState with authRequests := [("7", reqA)], signRequests := [("1", qSign)]
                   didSignRequests := [("2", qDid)], metaRequests := [("3", qMeta)] }

/-- An extension context over `busyState` with the keyring pair and DID stored. -/
def busyCtx : ExtCtx :=
  { st := busyState, keyring := [("acc", pairAcc)], cachedUnlocks := []
    didsStore := [("did:qsb:abc", "dp")], now := 0 }

/-- An extension context with nothing pending. -/
def emptyCtx : ExtCtx :=
  { st := baseState, keyring := [], cachedUnlocks := [], didsStore := [], now := 0 }

/-- An authorization entry fixture for origin `o1`. -/
def infoO1 : AuthUrlInfo :=
  { authorizedAccounts := ["A", "B"], authorizedDids := ["d"], count := 3
    id := "o1", origin := "O", url := "https://o1/x" }

/-- A state whose store holds exactly the `o1` entry. -/
def authState : State :=
  { baseState with authUrls := [("o1", infoO1)], storedAuthUrls := [("o1", infoO1)] }

/-- The reachability invariant of the authorize tables. -/
def AuthInv (s : State) : Prop :=
  (∀ p ∈ s.authRequests, p.2.idStr = stripUrlRaw p.2.url) ∧
  s.authRequests.Pairwise (fun p q => p.2.idStr ≠ q.2.idStr) ∧
  (∀ p ∈ s.authRequests, lookupA s.authUrls p.2.idStr = none)


/-! ### Association-list lemmas -/

@[simp] theorem lookupA_nil (k : String) : lookupA ([] : List (String × α)) k = none := rfl

theorem lookupA_cons (p : String × α) (l : List (String × α)) (k : String) :
    lookupA (p :: l) k = if p.1 = k then some p.2 else lookupA l k := by
  simp only [lookupA, List.find?]
  by_cases h : p.1 = k <;> simp [h]

theorem eraseA_cons (p : String × α) (t : List (String × α)) (k : String) :
    eraseA (p :: t) k = if p.1 = k then eraseA t k else p :: eraseA t k := by
  simp only [eraseA, List.filter]
  by_cases h : p.1 = k <;> simp [h]

@[simp] theorem lookupA_eraseA_self (l : List (String × α)) (k : String) :
    lookupA (eraseA l k) k = none := by
  induction l with
  | nil => rfl
  | cons p t ih =>
    by_cases h : p.1 = k
    · simpa [eraseA_cons, h] using ih
    · simpa [eraseA_cons, lookupA_cons, h] using ih

theorem lookupA_eraseA_ne (l : List (String × α)) (k k' : String) (h : k' ≠ k) :
    lookupA (eraseA l k) k' = lookupA l k' := by
  induction l with
  | nil => rfl
  | cons p t ih =>
    by_cases hp : p.1 = k
    · have hne : p.1 ≠ k' := by rw [hp]; exact fun e => h e.symm
      rw [eraseA_cons, if_pos hp, ih, lookupA_cons, if_neg hne]
    · rw [eraseA_cons, if_neg hp, lookupA_cons, lookupA_cons, ih]

theorem lookupA_append (l l' : List (String × α)) (k : String) :
    lookupA (l ++ l') k = ((lookupA l k).orElse (fun _ => lookupA l' k)) := by
  induction l with
  | nil => simp [lookupA]
  | cons p t ih => by_cases h : p.1 = k <;> simp [lookupA_cons, h, ih]

theorem lookupA_isSome_iff (l : List (String × α)) (k : String) :
    (lookupA l k).isSome ↔ ∃ p ∈ l, p.1 = k := by
  simp [lookupA, List.find?_isSome]

theorem lookupA_overwrite_self (l : List (String × α)) (k : String) (v : α) :
    lookupA (l.map (fun p => if p.1 = k then (k, v) else p)) k =
      (lookupA l k).map (fun _ => v) := by
  induction l with
  | nil => rfl
  | cons p t ih =>
    by_cases h : p.1 = k
    · simp [lookupA_cons, h]
    · simpa [lookupA_cons, h] using ih

theorem lookupA_overwrite_ne (l : List (String × α)) (k k' : String) (v : α)
    (h : k' ≠ k) :
    lookupA (l.map (fun p => if p.1 = k then (k, v) else p)) k' = lookupA l k' := by
  induction l with
  | nil => rfl
  | cons p t ih =>
    simp only [List.map_cons]
    by_cases hp : p.1 = k
    · have hk : k ≠ k' := fun e => h e.symm
      rw [if_pos hp, lookupA_cons, lookupA_cons]
      simp [hp, hk, ih]
    · rw [if_neg hp, lookupA_cons, lookupA_cons, ih]

theorem lookupA_upsertA_self (l : List (String × α)) (k : String) (v : α) :
    lookupA (upsertA l k v) k = some v := by
  unfold upsertA
  by_cases h : (l.find? (fun p => p.1 = k)).isSome
  · rw [if_pos h, lookupA_overwrite_self]
    have hs : (lookupA l k).isSome := by simp [lookupA, h]
    obtain ⟨w, hw⟩ := Option.isSome_iff_exists.mp hs
    rw [hw]
    rfl
  · rw [if_neg h, lookupA_append]
    have hf : l.find? (fun p => p.1 = k) = none := Option.not_isSome_iff_eq_none.mp h
    have : lookupA l k = none := by simp [lookupA, hf]
    simp [this, lookupA_cons]

theorem lookupA_upsertA_ne (l : List (String × α)) (k k' : String) (v : α)
    (h : k' ≠ k) :
    lookupA (upsertA l k v) k' = lookupA l k' := by
  unfold upsertA
  by_cases hs : (l.find? (fun p => p.1 = k)).isSome
  · rw [if_pos hs, lookupA_overwrite_ne _ _ _ _ h]
  · rw [if_neg hs, lookupA_append]
    have hk : k ≠ k' := fun e => h e.symm
    cases hv : lookupA l k' <;> simp [hv, lookupA_cons, hk]

theorem mem_eraseA (l : List (String × α)) (k : String) (p : String × α) :
    p ∈ eraseA l k ↔ p ∈ l ∧ p.1 ≠ k := by
  simp [eraseA, List.mem_filter]

/-! ### Shared facts about the authorize flow -/

/-- When the store already holds an entry for the normalized origin and no
pending authorize request exists for it, `authorizeUrl` returns the
already-resolved empty response and leaves the state untouched. -/
theorem authorizeUrl_short_circuit (s : State) (url origin : String) (info : AuthUrlInfo)
    (hurl : url ≠ "") (hscheme : validScheme url = true)
    (hnodup : ∀ p ∈ s.authRequests, p.2.idStr ≠ stripUrlRaw url)
    (hentry : lookupA s.authUrls (stripUrlRaw url) = some info) :
    authorizeUrl s url origin =
      (s, .immediate { result := false, authorizedAccounts := [], authorizedDids := [] }) := by
  have h1 : stripUrl url = .ok (stripUrlRaw url) := by
    simp [stripUrl, hurl, hscheme]
  have h2 : s.authRequests.any (fun p => p.2.idStr = stripUrlRaw url) = false := by
    simp only [List.any_eq_false, decide_eq_true_eq]
    exact hnodup
  simp [authorizeUrl, h1, h2, hentry]

/-- `authComplete` on a queued id writes the entry for the request's origin
into the store and its durable copy, replaces the default account selection,
and removes the pending entry. -/
theorem authComplete_spec (s : State) (id : String) (req : AuthRequest)
    (accs dids : List String) (hreq : lookupA s.authRequests id = some req) :
    authComplete s id accs dids =
      ({ s with
          authUrls := upsertA s.authUrls (stripUrlRaw req.url)
            { authorizedAccounts := accs, authorizedDids := dids, count := 0
              id := req.idStr, origin := req.origin, url := req.url }
          storedAuthUrls := upsertA s.authUrls (stripUrlRaw req.url)
            { authorizedAccounts := accs, authorizedDids := dids, count := 0
              id := req.idStr, origin := req.origin, url := req.url }
          authRequests := eraseA s.authRequests id
          defaultAuthAccountSelection := accs
          storedDefaultAuthAccounts := accs }, none) := by
  simp [authComplete, hreq, updateDefaultAuthAccounts]

/-! ### Claim C4 -/

/-- Claim C4: for every url whose normalized origin already has an
`AuthorizationEntry` in the authorization store (and, per the duplicate
pre-check that runs first and the reachability invariant that an origin is
never simultaneously stored and pending, no pending authorize request for
that origin), `authorizeUrl` returns
`{authorizedAccounts: [], authorizedDids: [], result: false}` immediately:
the returned state is exactly the input state, so no pending entry is
added, the popup-open count is unchanged and the store is unmodified. -/
theorem claim_C4_short_circuit (s : State) (url origin : String) (info : AuthUrlInfo)
    (hurl : url ≠ "") (hscheme : validScheme url = true)
    (hnodup : ∀ p ∈ s.authRequests, p.2.idStr ≠ stripUrlRaw url)
    (hentry : lookupA s.authUrls (stripUrlRaw url) = some info) :
    authorizeUrl s url origin =
      (s, .immediate { result := false, authorizedAccounts := [], authorizedDids := [] }) :=
  authorizeUrl_short_circuit s url origin info hurl hscheme hnodup hentry

/-- Witness for C4: a store holding `site.example` short-circuits a second
`authorizeUrl` for that origin. -/
theorem claim_C4_witness :
    authorizeUrl
        { baseState with authUrls := [("site.example",
            { authorizedAccounts := ["A"], authorizedDids := [], count := 0
              id := "site.example", origin := "Site", url := "https://site.example/app" })] }
        "https://site.example/other" "Site2" =
      ({ baseState with authUrls := [("site.example",
            { authorizedAccounts := ["A"], authorizedDids := [], count := 0
              id := "site.example", origin := "Site", url := "https://site.example/app" })] },
        .immediate { result := false, authorizedAccounts := [], authorizedDids := [] }) :=
  claim_C4_short_circuit _ _ "Site2"
    { authorizedAccounts := ["A"], authorizedDids := [], count := 0
      id := "site.example", origin := "Site", url := "https://site.example/app" }
    (by decide) (by decide) (by intro p hp; simp [baseState] at hp) (by decide)

/-! ### Claim C5 -/

/-- Claim C5: for a normalized origin with no `AuthorizationEntry` and no
pending authorize request, a first `authorizeUrl` enqueues a pending
request, and a second call for any url with the same normalized origin
fails with `DuplicateRequest`, enqueues nothing and leaves the state of the
first call (including its pending entry) untouched. -/
theorem claim_C5_duplicate_request (s : State) (url origin url2 origin2 : String)
    (hurl : url ≠ "") (hscheme : validScheme url = true)
    (hurl2 : url2 ≠ "") (hscheme2 : validScheme url2 = true)
    (hsame : stripUrlRaw url2 = stripUrlRaw url)
    (hnopending : ∀ p ∈ s.authRequests, p.2.idStr ≠ stripUrlRaw url)
    (hnoentry : lookupA s.authUrls (stripUrlRaw url) = none) :
    (authorizeUrl s url origin).2 = .enqueued (toString s.nextId) ∧
    (toString s.nextId,
        { id := toString s.nextId, idStr := stripUrlRaw url, origin := origin, url := url })
      ∈ (authorizeUrl s url origin).1.authRequests ∧
    authorizeUrl (authorizeUrl s url origin).1 url2 origin2 =
      ((authorizeUrl s url origin).1, .threw .duplicateRequest) := by
  have h1 : stripUrl url = .ok (stripUrlRaw url) := by simp [stripUrl, hurl, hscheme]
  have h2 : s.authRequests.any (fun p => p.2.idStr = stripUrlRaw url) = false := by
    simp only [List.any_eq_false, decide_eq_true_eq]
    exact hnopending
  have hfirst : authorizeUrl s url origin =
      ({ s with nextId := s.nextId + 1
                authRequests := s.authRequests ++
                  [(toString s.nextId,
                    { id := toString s.nextId, idStr := stripUrlRaw url
                      origin := origin, url := url })]
                popupOpenCount := s.popupOpenCount + 1 },
        .enqueued (toString s.nextId)) := by
    simp [authorizeUrl, h1, h2, hnoentry]
  have h1b : stripUrl url2 = .ok (stripUrlRaw url) := by
    simp [stripUrl, hurl2, hscheme2, hsame]
  refine ⟨by rw [hfirst], by rw [hfirst]; simp, ?_⟩
  rw [hfirst]
  have hany : (s.authRequests ++
      [((toString s.nextId,
        ({ id := toString s.nextId, idStr := stripUrlRaw url
           origin := origin, url := url } : AuthRequest)))]).any
      (fun p => p.2.idStr = stripUrlRaw url) = true := by
    simp
  simp [authorizeUrl, h1b, hany]

/-- Witness for C5: enqueue for `site.example`, then a second call for the
same origin fails with `DuplicateRequest`. -/
theorem claim_C5_witness :
    (authorizeUrl baseState "https://site.example/app" "Site").2 =
      .enqueued (toString baseState.nextId) ∧
    (toString baseState.nextId,
        { id := toString baseState.nextId, idStr := stripUrlRaw "https://site.example/app"
          origin := "Site", url := "https://site.example/app" })
      ∈ (authorizeUrl baseState "https://site.example/app" "Site").1.authRequests ∧
    authorizeUrl (authorizeUrl baseState "https://site.example/app" "Site").1
        "https://site.example/other" "Site2" =
      ((authorizeUrl baseState "https://site.example/app" "Site").1,
        .threw .duplicateRequest) :=
  claim_C5_duplicate_request baseState "https://site.example/app" "Site"
    "https://site.example/other" "Site2" (by decide) (by decide) (by decide) (by decide)
    (by decide) (by intro p hp; simp [baseState] at hp) (by decide)

/-! ### Claim C9 -/

/-- Claim C9: invoking the reject continuation of a pending authorize
request runs `complete()` with an empty account list, which overwrites the
default-authorized-account selection and its durable copy with `[]`,
whatever they held before, although the rejection concerns one origin. -/
theorem claim_C9_reject_clears_default_selection (s : State) (id : String)
    (hreq : (lookupA s.authRequests id).isSome) :
    (authRequestReject s id).1.defaultAuthAccountSelection = [] ∧
    (authRequestReject s id).1.storedDefaultAuthAccounts = [] ∧
    (authRequestReject s id).2 = none := by
  obtain ⟨req, hr⟩ := Option.isSome_iff_exists.mp hreq
  simp [authRequestReject, authComplete, hr, updateDefaultAuthAccounts]

/-- Witness for C9: rejecting the pending request of `busyState` wipes the
non-empty default selection `["A"]` and its durable copy. -/
theorem claim_C9_witness :
    (authRequestReject busyState "7").1.defaultAuthAccountSelection = [] ∧
    (authRequestReject busyState "7").1.storedDefaultAuthAccounts = [] ∧
    (authRequestReject busyState "7").2 = none :=
  claim_C9_reject_clears_default_selection busyState "7" (by decide)

/-! ### Claim C6 -/

/-- Claim C6: both the approve and the reject path of resolving a pending
authorize request write an `AuthorizationEntry` for the request's
normalized origin into the store and its durable copy; the rejection path
writes empty account and DID lists with usage counter 0, so a later
`authorizeUrl` for that origin short-circuits instead of enqueuing. The
hypothesis `honly` is the reachability invariant that at most one pending
authorize request exists per origin. -/
theorem claim_C6_both_paths_write_entry (s : State) (id : String) (req : AuthRequest)
    (accs dids : List String)
    (hreq : lookupA s.authRequests id = some req)
    (honly : ∀ p ∈ s.authRequests, p.2.idStr = stripUrlRaw req.url → p.1 = id) :
    lookupA (authRequestReject s id).1.authUrls (stripUrlRaw req.url) =
      some { authorizedAccounts := [], authorizedDids := [], count := 0
             id := req.idStr, origin := req.origin, url := req.url } ∧
    lookupA (authRequestReject s id).1.storedAuthUrls (stripUrlRaw req.url) =
      some { authorizedAccounts := [], authorizedDids := [], count := 0
             id := req.idStr, origin := req.origin, url := req.url } ∧
    lookupA (authComplete s id accs dids).1.authUrls (stripUrlRaw req.url) =
      some { authorizedAccounts := accs, authorizedDids := dids, count := 0
             id := req.idStr, origin := req.origin, url := req.url } ∧
    lookupA (authComplete s id accs dids).1.storedAuthUrls (stripUrlRaw req.url) =
      some { authorizedAccounts := accs, authorizedDids := dids, count := 0
             id := req.idStr, origin := req.origin, url := req.url } ∧
    (∀ url2 origin2, url2 ≠ "" → validScheme url2 = true →
      stripUrlRaw url2 = stripUrlRaw req.url →
      authorizeUrl (authRequestReject s id).1 url2 origin2 =
        ((authRequestReject s id).1,
          .immediate { result := false, authorizedAccounts := [], authorizedDids := [] })) := by
  have hrej := authComplete_spec s id req [] [] hreq
  have happ := authComplete_spec s id req accs dids hreq
  refine ⟨?_, ?_, ?_, ?_, ?_⟩
  · rw [authRequestReject, hrej]
    exact lookupA_upsertA_self _ _ _
  · rw [authRequestReject, hrej]
    exact lookupA_upsertA_self _ _ _
  · rw [happ]
    exact lookupA_upsertA_self _ _ _
  · rw [happ]
    exact lookupA_upsertA_self _ _ _
  · intro url2 origin2 h2a h2b h2c
    refine authorizeUrl_short_circuit _ _ _
      { authorizedAccounts := [], authorizedDids := [], count := 0
        id := req.idStr, origin := req.origin, url := req.url } h2a h2b ?_ ?_
    · intro p hp
      rw [authRequestReject, hrej] at hp
      simp only at hp
      obtain ⟨hmem, hne⟩ := (mem_eraseA _ _ _).mp hp
      rw [h2c]
      exact fun e => hne (honly p hmem e)
    · rw [authRequestReject, hrej, h2c]
      exact lookupA_upsertA_self _ _ _

/-- Witness for C6: rejecting `busyState`'s pending request for
`site.example` stores the empty entry and a later `authorizeUrl` for the
origin short-circuits. -/
theorem claim_C6_witness :
    lookupA (authRequestReject busyState "7").1.authUrls (stripUrlRaw reqA.url) =
      some { authorizedAccounts := [], authorizedDids := [], count := 0
             id := reqA.idStr, origin := reqA.origin, url := reqA.url } ∧
    lookupA (authRequestReject busyState "7").1.storedAuthUrls (stripUrlRaw reqA.url) =
      some { authorizedAccounts := [], authorizedDids := [], count := 0
             id := reqA.idStr, origin := reqA.origin, url := reqA.url } ∧
    lookupA (authComplete busyState "7" ["A"] ["d"]).1.authUrls (stripUrlRaw reqA.url) =
      some { authorizedAccounts := ["A"], authorizedDids := ["d"], count := 0
             id := reqA.idStr, origin := reqA.origin, url := reqA.url } ∧
    lookupA (authComplete busyState "7" ["A"] ["d"]).1.storedAuthUrls (stripUrlRaw reqA.url) =
      some { authorizedAccounts := ["A"], authorizedDids := ["d"], count := 0
             id := reqA.idStr, origin := reqA.origin, url := reqA.url } ∧
    authorizeUrl (authRequestReject busyState "7").1 "https://site.example/later" "Site3" =
      ((authRequestReject busyState "7").1,
        .immediate { result := false, authorizedAccounts := [], authorizedDids := [] }) := by
  obtain ⟨w1, w2, w3, w4, w5⟩ :=
    claim_C6_both_paths_write_entry busyState "7" reqA ["A"] ["d"] (by decide)
      (by intro p hp hs; simp [busyState, baseState] at hp; rw [hp])
  exact ⟨w1, w2, w3, w4, w5 "https://site.example/later" "Site3" (by decide) (by decide)
    (by decide)⟩

/-! ### Claim C1 -/

/-- Whenever `signingApprovePassword` settles (invokes the captured resolve
or reject), the pending entry is gone from the sign-request table. -/
theorem signingApprovePassword_settled_removes (c : ExtCtx) (id password : String)
    (savePass : Bool)
    (h : (signingApprovePassword c id password savePass).2.settled = true) :
    lookupA (signingApprovePassword c id password savePass).1.st.signRequests id = none := by
  cases hq : lookupA c.st.signRequests id with
  | none =>
    exfalso
    simp [signingApprovePassword, hq, Outcome.settled] at h
  | some q =>
    cases hp : lookupA c.keyring q.accountAddress with
    | none => simp [signingApprovePassword, hq, hp]
    | some pair0 =>
      simp only [signingApprovePassword, hq, hp] at h ⊢
      split_ifs at h ⊢ <;> simp_all [Outcome.settled]

/-- Whenever `didsSignApprove` settles, the pending entry is gone from the
DID sign-request table. -/
theorem didsSignApprove_settled_removes (c : ExtCtx) (id password : String)
    (h : (didsSignApprove c id password).2.settled = true) :
    lookupA (didsSignApprove c id password).1.st.didSignRequests id = none := by
  cases hq : lookupA c.st.didSignRequests id with
  | none =>
    exfalso
    simp [didsSignApprove, hq, Outcome.settled] at h
  | some q =>
    cases hd : lookupA c.didsStore ("did:" ++ q.did) with
    | none =>
      exfalso
      simp [didsSignApprove, hq, hd, Outcome.settled] at h
    | some didPassword =>
      simp only [didsSignApprove, hq, hd] at h ⊢
      split_ifs at h ⊢ <;> simp_all [Outcome.settled]

/-- Claim C1: for every request kind (authorize, sign, did-sign, metadata)
and every id, the entry is removed from its table atomically with the first
resolution (conjuncts about `settled` outcomes), so once an id has been
resolved or rejected its id is absent and any further approve, reject or
cancel command on it fails with `NotFound` while changing no pending table
(conjuncts with an absent-lookup hypothesis return the state unchanged). -/
theorem claim_C1_exactly_once_resolution (s : State) (c : ExtCtx)
    (id password signature : String) (accs dids : List String) (savePass : Bool) :
    (lookupA s.authRequests id = none →
      authorizeApprove s id accs dids = (s, .threw .notFound)) ∧
    (lookupA s.metaRequests id = none →
      metadataApprove s id = (s, .threw .notFound)) ∧
    (lookupA s.metaRequests id = none →
      metadataReject s id = (s, .threw .notFound)) ∧
    (lookupA s.signRequests id = none →
      signingApproveSignature s id signature = (s, .threw .notFound)) ∧
    (lookupA s.signRequests id = none →
      signingCancel s id = (s, .threw .notFound)) ∧
    (lookupA c.st.signRequests id = none →
      signingApprovePassword c id password savePass = (c, .threw .notFound)) ∧
    (lookupA s.didSignRequests id = none →
      didsSignCancel s id = (s, .threw .notFound)) ∧
    (lookupA c.st.didSignRequests id = none →
      didsSignApprove c id password = (c, .threw .notFound)) ∧
    ((authorizeApprove s id accs dids).2.settled = true →
      getAuthRequest (authorizeApprove s id accs dids).1 id = none) ∧
    ((metadataApprove s id).2.settled = true →
      getMetaRequest (metadataApprove s id).1 id = none) ∧
    ((metadataReject s id).2.settled = true →
      getMetaRequest (metadataReject s id).1 id = none) ∧
    ((signingApproveSignature s id signature).2.settled = true →
      getSignRequest (signingApproveSignature s id signature).1 id = none) ∧
    ((signingCancel s id).2.settled = true →
      getSignRequest (signingCancel s id).1 id = none) ∧
    ((signingApprovePassword c id password savePass).2.settled = true →
      getSignRequest (signingApprovePassword c id password savePass).1.st id = none) ∧
    ((didsSignCancel s id).2.settled = true →
      getDidSignRequest (didsSignCancel s id).1 id = none) ∧
    ((didsSignApprove c id password).2.settled = true →
      getDidSignRequest (didsSignApprove c id password).1.st id = none) := by
  refine ⟨?_, ?_, ?_, ?_, ?_, ?_, ?_, ?_, ?_, ?_, ?_, ?_, ?_, ?_, ?_, ?_⟩
  · intro h; simp [authorizeApprove, h]
  · intro h; simp [metadataApprove, h]
  · intro h; simp [metadataReject, h]
  · intro h; simp [signingApproveSignature, h]
  · intro h; simp [signingCancel, h]
  · intro h; simp [signingApprovePassword, h]
  · intro h; simp [didsSignCancel, h]
  · intro h; simp [didsSignApprove, h]
  · intro h
    cases hq : lookupA s.authRequests id with
    | none => exfalso; simp [authorizeApprove, hq, Outcome.settled] at h
    | some req =>
      simp [authorizeApprove, hq, authComplete, getAuthRequest, updateDefaultAuthAccounts]
  · intro h
    cases hq : lookupA s.metaRequests id with
    | none => exfalso; simp [metadataApprove, hq, Outcome.settled] at h
    | some q => simp [metadataApprove, hq, getMetaRequest]
  · intro h
    cases hq : lookupA s.metaRequests id with
    | none => exfalso; simp [metadataReject, hq, Outcome.settled] at h
    | some q => simp [metadataReject, hq, getMetaRequest]
  · intro h
    cases hq : lookupA s.signRequests id with
    | none => exfalso; simp [signingApproveSignature, hq, Outcome.settled] at h
    | some q => simp [signingApproveSignature, hq, getSignRequest]
  · intro h
    cases hq : lookupA s.signRequests id with
    | none => exfalso; simp [signingCancel, hq, Outcome.settled] at h
    | some q => simp [signingCancel, hq, getSignRequest]
  · exact fun h => signingApprovePassword_settled_removes c id password savePass h
  · intro h
    cases hq : lookupA s.didSignRequests id with
    | none => exfalso; simp [didsSignCancel, hq, Outcome.settled] at h
    | some q => simp [didsSignCancel, hq, getDidSignRequest]
  · exact fun h => didsSignApprove_settled_removes c id password h

/-- Witness for C1: on empty tables every resolution command fails with
`NotFound` leaving the state unchanged, and each settling command on
`busyState` removes its pending entry. -/
theorem claim_C1_witness :
    authorizeApprove baseState "9" [] [] = (baseState, .threw .notFound) ∧
    metadataApprove baseState "9" = (baseState, .threw .notFound) ∧
    metadataReject baseState "9" = (baseState, .threw .notFound) ∧
    signingApproveSignature baseState "9" "s" = (baseState, .threw .notFound) ∧
    signingCancel baseState "9" = (baseState, .threw .notFound) ∧
    signingApprovePassword emptyCtx "9" "pw" false = (emptyCtx, .threw .notFound) ∧
    didsSignCancel baseState "9" = (baseState, .threw .notFound) ∧
    didsSignApprove emptyCtx "9" "pw" = (emptyCtx, .threw .notFound) ∧
    getAuthRequest (authorizeApprove busyState "7" ["A"] []).1 "7" = none ∧
    getMetaRequest (metadataApprove busyState "3").1 "3" = none ∧
    getMetaRequest (metadataReject busyState "3").1 "3" = none ∧
    getSignRequest (signingApproveSignature busyState "1" "s").1 "1" = none ∧
    getSignRequest (signingCancel busyState "1").1 "1" = none ∧
    getSignRequest (signingApprovePassword busyCtx "1" "pw" false).1.st "1" = none ∧
    getDidSignRequest (didsSignCancel busyState "2").1 "2" = none ∧
    getDidSignRequest (didsSignApprove busyCtx "2" "dp").1.st "2" = none := by
  obtain ⟨a1, a2, a3, a4, a5, a6, a7, a8, -, -, -, -, -, -, -, -⟩ :=
    claim_C1_exactly_once_resolution baseState emptyCtx "9" "pw" "s" [] [] false
  obtain ⟨-, -, -, -, -, -, -, -, b1, -, -, -, -, -, -, -⟩ :=
    claim_C1_exactly_once_resolution busyState busyCtx "7" "pw" "s" ["A"] [] false
  obtain ⟨-, -, -, -, -, -, -, -, -, b2, b3, -, -, -, -, -⟩ :=
    claim_C1_exactly_once_resolution busyState busyCtx "3" "pw" "s" ["A"] [] false
  obtain ⟨-, -, -, -, -, -, -, -, -, -, -, b4, b5, b6, -, -⟩ :=
    claim_C1_exactly_once_resolution busyState busyCtx "1" "pw" "s" ["A"] [] false
  obtain ⟨-, -, -, -, -, -, -, -, -, -, -, -, -, -, b7, b8⟩ :=
    claim_C1_exactly_once_resolution busyState busyCtx "2" "dp" "s" ["A"] [] false
  exact ⟨a1 (by decide), a2 (by decide), a3 (by decide), a4 (by decide), a5 (by decide),
    a6 (by decide), a7 (by decide), a8 (by decide), b1 (by decide), b2 (by decide),
    b3 (by decide), b4 (by decide), b5 (by decide), b6 (by decide), b7 (by decide),
    b8 (by decide)⟩

/-! ### Claim C2 -/

theorem refresh_isLocked (cu : List (String × Int)) (now : Int) (p : KPair)
    (h : p.isLocked = true) :
    (refreshAccountPasswordCache cu now p).1.isLocked = true := by
  by_cases hc : (lookupA cu p.address).getD 0 - now < 0 <;>
    simp [refreshAccountPasswordCache, hc, h]

theorem refresh_password (cu : List (String × Int)) (now : Int) (p : KPair) :
    (refreshAccountPasswordCache cu now p).1.password = p.password := by
  by_cases hc : (lookupA cu p.address).getD 0 - now < 0 <;>
    simp [refreshAccountPasswordCache, hc]

/-- Counterexample to claim C2 as stated: approving the queued sign request
`1` with the wrong password `bad` while the pair is locked does not reject
the request with `WrongPassword` and does not remove it — the handler throws
the decode error to the command caller and the entry stays queued. -/
theorem claim_C2_counterexample :
    (signingApprovePassword busyCtx "1" "bad" false).2 = .threw .unableToDecode ∧
    getSignRequest (signingApprovePassword busyCtx "1" "bad" false).1.st "1" = some qSign :=
  ⟨by decide, by decide⟩

/-- Claim C2 (amended): for every pending sign request whose keyring pair is
locked, invoking the sign-approval command with a wrong non-empty password
makes `decodePkcs8` throw out of the handler: the error is surfaced to the
command caller, no signature is produced and the captured continuations are
not invoked, so the pending request remains in the sign-request table. -/
theorem claim_C2_amended (c : ExtCtx) (id password : String) (savePass : Bool)
    (q : SignRequest) (pair0 : KPair)
    (hq : lookupA c.st.signRequests id = some q)
    (hp : lookupA c.keyring q.accountAddress = some pair0)
    (hlock : pair0.isLocked = true)
    (hne : password ≠ "")
    (hw : password ≠ pair0.password) :
    (signingApprovePassword c id password savePass).2 = .threw .unableToDecode ∧
    (signingApprovePassword c id password savePass).1.st.signRequests =
      c.st.signRequests := by
  have hL := refresh_isLocked c.cachedUnlocks c.now pair0 hlock
  have hP := refresh_password c.cachedUnlocks c.now pair0
  have hcond1 : ¬((refreshAccountPasswordCache c.cachedUnlocks c.now pair0).1.isLocked = true
      ∧ password = "") := fun hc => hne hc.2
  have hcond2 : (refreshAccountPasswordCache c.cachedUnlocks c.now pair0).1.isLocked = true
      ∧ password ≠ (refreshAccountPasswordCache c.cachedUnlocks c.now pair0).1.password := by
    exact ⟨hL, by rw [hP]; exact hw⟩
  simp only [signingApprovePassword, hq, hp]
  rw [if_neg hcond1, if_pos hcond2, if_neg hcond1]
  exact ⟨rfl, rfl⟩

/-- Witness for the amended C2 at the concrete context `busyCtx`. -/
theorem claim_C2_amended_witness :
    (signingApprovePassword busyCtx "1" "bad" false).2 = .threw .unableToDecode ∧
    (signingApprovePassword busyCtx "1" "bad" false).1.st.signRequests =
      busyCtx.st.signRequests :=
  claim_C2_amended busyCtx "1" "bad" false qSign pairAcc (by decide) (by decide)
    (by decide) (by decide) (by decide)

/-! ### Claim C3 -/

/-- Counterexample to claim C3 as stated: with the DID absent from the DID
store, the DID sign-approval command surfaces `DID not found` to the caller
but does not remove the pending entry — the whole context is returned
unchanged, so an erroring resolution can leave a pending request behind. -/
theorem claim_C3_counterexample :
    didsSignApprove { busyCtx with didsStore := [] } "2" "dp" =
      ({ busyCtx with didsStore := [] }, .threw .didNotFound) ∧
    getDidSignRequest
        (didsSignApprove { busyCtx with didsStore := [] } "2" "dp").1.st "2" =
      some qDid :=
  ⟨by decide, by decide⟩

/-- Claim C3 (amended): resolution commands that surface their error by
invoking the captured reject — cancellation of a sign or DID-sign request,
and a wrong DID password — do remove the pending entry as part of
surfacing the error; but a DID-store lookup miss (and likewise a wrong
sign password, see C2) throws to the command caller without invoking any
continuation and leaves the pending entry in its table. -/
theorem claim_C3_amended (s : State) (c : ExtCtx) (id password : String) :
    ((lookupA s.signRequests id).isSome →
      (signingCancel s id).2 = .rejectedWith .cancelled ∧
      getSignRequest (signingCancel s id).1 id = none) ∧
    ((lookupA s.didSignRequests id).isSome →
      (didsSignCancel s id).2 = .rejectedWith .cancelled ∧
      getDidSignRequest (didsSignCancel s id).1 id = none) ∧
    (∀ q didPassword, lookupA c.st.didSignRequests id = some q →
      lookupA c.didsStore ("did:" ++ q.did) = some didPassword →
      password ≠ didPassword →
      (didsSignApprove c id password).2 = .rejectedWith .wrongDidPassword ∧
      getDidSignRequest (didsSignApprove c id password).1.st id = none) ∧
    (∀ q, lookupA c.st.didSignRequests id = some q →
      lookupA c.didsStore ("did:" ++ q.did) = none →
      didsSignApprove c id password = (c, .threw .didNotFound)) := by
  refine ⟨?_, ?_, ?_, ?_⟩
  · intro h
    obtain ⟨q, hq⟩ := Option.isSome_iff_exists.mp h
    simp [signingCancel, hq, getSignRequest]
  · intro h
    obtain ⟨q, hq⟩ := Option.isSome_iff_exists.mp h
    simp [didsSignCancel, hq, getDidSignRequest]
  · intro q didPassword hq hd hne
    simp [didsSignApprove, hq, hd, hne, getDidSignRequest]
  · intro q hq hd
    simp [didsSignApprove, hq, hd]

/-- Witness for the amended C3 at the concrete fixtures. -/
theorem claim_C3_amended_witness :
    ((signingCancel busyState "1").2 = .rejectedWith .cancelled ∧
      getSignRequest (signingCancel busyState "1").1 "1" = none) ∧
    ((didsSignCancel busyState "2").2 = .rejectedWith .cancelled ∧
      getDidSignRequest (didsSignCancel busyState "2").1 "2" = none) ∧
    ((didsSignApprove busyCtx "2" "x").2 = .rejectedWith .wrongDidPassword ∧
      getDidSignRequest (didsSignApprove busyCtx "2" "x").1.st "2" = none) ∧
    didsSignApprove { busyCtx with didsStore := [] } "2" "x" =
      ({ busyCtx with didsStore := [] }, .threw .didNotFound) := by
  obtain ⟨w1, -, -, -⟩ := claim_C3_amended busyState busyCtx "1" "x"
  obtain ⟨-, w2, w3, -⟩ := claim_C3_amended busyState busyCtx "2" "x"
  obtain ⟨-, -, -, w4⟩ :=
    claim_C3_amended busyState { busyCtx with didsStore := [] } "2" "x"
  exact ⟨w1 (by decide), w2 (by decide), w3 qDid "dp" (by decide) (by decide) (by decide),
    w4 qDid (by decide) (by decide)⟩

/-! ### Claims C8 and C10: lemmas about `applyAuthDiff` -/

theorem lookupA_assignA (l : List (String × α)) (u : String) (f : α → α) (k : String) :
    lookupA (assignA l u f) k =
      if u = k then (lookupA l k).map f else lookupA l k := by
  induction l with
  | nil => by_cases h : u = k <;> simp [assignA, h]
  | cons p t ih =>
    by_cases hp : p.1 = u
    · by_cases hk : u = k
      · simp [assignA, lookupA_cons, hp, hk]
      · simp only [assignA, List.map_cons] at ih ⊢
        simp [lookupA_cons, hp, hk, ih]
    · by_cases hk : p.1 = k
      · have huk : ¬u = k := fun e => hp (hk.trans e.symm)
        have hku : ¬k = u := fun e => huk e.symm
        simp [assignA, lookupA_cons, hp, hk, huk, hku]
      · by_cases huk : u = k
        · subst huk
          simp only [assignA, List.map_cons] at ih ⊢
          simp [lookupA_cons, hp, hk, ih]
        · simp only [assignA, List.map_cons] at ih ⊢
          simp [lookupA_cons, hp, hk, huk, ih]

theorem lookupA_assignA_isSome (l : List (String × α)) (u : String) (f : α → α)
    (k : String) : (lookupA (assignA l u f) k).isSome = (lookupA l k).isSome := by
  rw [lookupA_assignA]
  by_cases h : u = k <;> simp [h]

/-- When every diff entry lists an origin present in the map and never
reintroduces the address, applying the diff does not throw and scrubs the
address from every entry that the diff covers — which is every entry that
listed it. -/
theorem applyAuthDiff_forget (address : String) :
    ∀ (diff : List (String × List String × Option (List String)))
      (urls : List (String × AuthUrlInfo)),
    (∀ e ∈ diff, address ∉ e.2.1) →
    (∀ e ∈ diff, ∃ p ∈ urls, p.1 = e.1) →
    (∀ p ∈ urls, address ∈ p.2.authorizedAccounts → ∃ e ∈ diff, e.1 = p.1) →
    (applyAuthDiff urls diff).2 = false ∧
    (∀ p ∈ (applyAuthDiff urls diff).1, address ∉ p.2.authorizedAccounts)
  | [], urls => by
    intro _ _ h3
    refine ⟨rfl, ?_⟩
    intro p hp hmem
    obtain ⟨e, he, -⟩ := h3 p hp hmem
    exact absurd he (List.not_mem_nil e)
  | (u, accs, dids) :: rest, urls => by
    intro h1 h2 h3
    have hsome : (lookupA urls u).isSome := by
      obtain ⟨p, hp, hpk⟩ := h2 (u, accs, dids) (by simp)
      rw [lookupA_isSome_iff]
      exact ⟨p, hp, hpk⟩
    obtain ⟨v, hv⟩ := Option.isSome_iff_exists.mp hsome
    have hstep : applyAuthDiff urls ((u, accs, dids) :: rest) =
        applyAuthDiff (assignA urls u (fun info =>
          { info with authorizedAccounts := accs
                      authorizedDids := dids.getD info.authorizedDids })) rest := by
      simp [applyAuthDiff, hv]
    rw [hstep]
    refine applyAuthDiff_forget address rest _ ?_ ?_ ?_
    · intro e he
      exact h1 e (by simp [he])
    · intro e he
      obtain ⟨p, hp, hpk⟩ := h2 e (by simp [he])
      rw [← hpk]
      refine ⟨(if p.1 = u then (p.1, ({ p.2 with authorizedAccounts := accs, authorizedDids := dids.getD p.2.authorizedDids } : AuthUrlInfo)) else p), List.mem_map.mpr ⟨p, hp, rfl⟩, ?_⟩
      by_cases hc : p.1 = u
      · rw [if_pos hc]
      · rw [if_neg hc]
    · intro p' hp' hmem
      obtain ⟨p, hp, hpe⟩ := List.mem_map.mp hp'
      by_cases hc : p.1 = u
      · rw [if_pos hc] at hpe
        rw [← hpe] at hmem
        simp only at hmem
        have hhead := h1 (u, accs, dids) (List.mem_cons_self _ _)
        simp only at hhead
        exact absurd hmem hhead
      · rw [if_neg hc] at hpe
        subst hpe
        obtain ⟨e, he, hek⟩ := h3 p hp hmem
        rcases List.mem_cons.mp he with he0 | he2
        · exfalso
          rw [he0] at hek
          exact hc (by simpa using hek.symm)
        · exact ⟨e, he2, hek⟩

/-- `accountsForget` never throws: it scrubs the address from the
authorization store in memory and on disk and filters the default account
selection, leaving everything else unchanged. -/
theorem accountsForget_spec (s : State) (address : String) :
    accountsForget s address =
      ({ s with
          authUrls := (applyAuthDiff s.authUrls (forgetDiff s address)).1
          storedAuthUrls := (applyAuthDiff s.authUrls (forgetDiff s address)).1
          defaultAuthAccountSelection :=
            s.defaultAuthAccountSelection.filter (fun a => a ≠ address)
          storedDefaultAuthAccounts :=
            s.defaultAuthAccountSelection.filter (fun a => a ≠ address) }, none) := by
  have hclean := applyAuthDiff_forget address (forgetDiff s address) s.authUrls
    (by
      intro e he
      obtain ⟨p, hp, hpe⟩ := List.mem_filterMap.mp he
      by_cases hc : address ∈ p.2.authorizedAccounts
      · rw [if_pos hc] at hpe
        cases hpe
        simp
      · rw [if_neg hc] at hpe
        cases hpe)
    (by
      intro e he
      obtain ⟨p, hp, hpe⟩ := List.mem_filterMap.mp he
      by_cases hc : address ∈ p.2.authorizedAccounts
      · rw [if_pos hc] at hpe
        cases hpe
        exact ⟨p, hp, rfl⟩
      · rw [if_neg hc] at hpe
        cases hpe)
    (by
      intro p hp hmem
      refine ⟨(p.1, p.2.authorizedAccounts.filter (fun a => a ≠ address), none), ?_, rfl⟩
      exact List.mem_filterMap.mpr ⟨p, hp, by rw [if_pos hmem]⟩)
  have heq : applyAuthDiff s.authUrls (forgetDiff s address) =
      ((applyAuthDiff s.authUrls (forgetDiff s address)).1, false) := by
    rw [← hclean.1]
  unfold accountsForget updateAuthorizedAccounts
  rw [heq]
  simp [updateDefaultAuthAccounts]

/-- Claim C8: `accountsForget address` removes the address from every
`AuthorizationEntry`'s account list and from the default-authorized-account
selection list (and its durable copies), never throws, and is idempotent:
a second application returns the state of the first unchanged. -/
theorem claim_C8_forget_scrubs_idempotent (s : State) (address : String) :
    (∀ p ∈ (accountsForget s address).1.authUrls,
      address ∉ p.2.authorizedAccounts) ∧
    (accountsForget s address).1.defaultAuthAccountSelection =
      s.defaultAuthAccountSelection.filter (fun a => a ≠ address) ∧
    (accountsForget s address).1.storedDefaultAuthAccounts =
      s.defaultAuthAccountSelection.filter (fun a => a ≠ address) ∧
    (accountsForget s address).2 = none ∧
    accountsForget (accountsForget s address).1 address =
      ((accountsForget s address).1, none) := by
  have hclean := applyAuthDiff_forget address (forgetDiff s address) s.authUrls
    (by
      intro e he
      obtain ⟨p, hp, hpe⟩ := List.mem_filterMap.mp he
      by_cases hc : address ∈ p.2.authorizedAccounts
      · rw [if_pos hc] at hpe
        cases hpe
        simp
      · rw [if_neg hc] at hpe
        cases hpe)
    (by
      intro e he
      obtain ⟨p, hp, hpe⟩ := List.mem_filterMap.mp he
      by_cases hc : address ∈ p.2.authorizedAccounts
      · rw [if_pos hc] at hpe
        cases hpe
        exact ⟨p, hp, rfl⟩
      · rw [if_neg hc] at hpe
        cases hpe)
    (by
      intro p hp hmem
      refine ⟨(p.1, p.2.authorizedAccounts.filter (fun a => a ≠ address), none), ?_, rfl⟩
      exact List.mem_filterMap.mpr ⟨p, hp, by rw [if_pos hmem]⟩)
  rw [accountsForget_spec s address]
  refine ⟨?_, rfl, rfl, rfl, ?_⟩
  · intro p hp
    exact hclean.2 p hp
  · rw [accountsForget_spec]
    have hd2 : forgetDiff { s with
        authUrls := (applyAuthDiff s.authUrls (forgetDiff s address)).1
        storedAuthUrls := (applyAuthDiff s.authUrls (forgetDiff s address)).1
        defaultAuthAccountSelection :=
          s.defaultAuthAccountSelection.filter (fun a => a ≠ address)
        storedDefaultAuthAccounts :=
          s.defaultAuthAccountSelection.filter (fun a => a ≠ address) } address = [] := by
      unfold forgetDiff
      rw [List.filterMap_eq_nil_iff]
      intro p hp
      rw [if_neg (hclean.2 p hp)]
    rw [hd2]
    have hfd : (s.defaultAuthAccountSelection.filter (fun a => a ≠ address)).filter
        (fun a => a ≠ address) =
        s.defaultAuthAccountSelection.filter (fun a => a ≠ address) :=
      List.filter_eq_self.mpr (fun a ha => (List.mem_filter.mp ha).2)
    simp [applyAuthDiff, hfd]

/-- Witness for C8 at `authState`: forgetting account `A` scrubs it from the
`o1` entry and the default selection, and a second forget is a no-op. -/
theorem claim_C8_witness :
    (accountsForget authState "A").2 = none ∧
    (accountsForget authState "A").1.defaultAuthAccountSelection =
      authState.defaultAuthAccountSelection.filter (fun a => a ≠ "A") ∧
    accountsForget (accountsForget authState "A").1 "A" =
      ((accountsForget authState "A").1, none) ∧
    "A" ∉ (⟨["B"], ["d"], 3, "o1", "O", "https://o1/x"⟩ : AuthUrlInfo).authorizedAccounts := by
  obtain ⟨w1, w2, w3, w4, w5⟩ := claim_C8_forget_scrubs_idempotent authState "A"
  refine ⟨w4, w2, w5, ?_⟩
  have hm : (("o1", (⟨["B"], ["d"], 3, "o1", "O", "https://o1/x"⟩ : AuthUrlInfo)) :
      String × AuthUrlInfo) ∈ (accountsForget authState "A").1.authUrls := by decide
  exact w1 _ hm

theorem takeWhile_congruence (p q : α → Bool) :
    ∀ l : List α, (∀ a ∈ l, p a = q a) → l.takeWhile p = l.takeWhile q
  | [], _ => rfl
  | a :: t, h => by
    have ha : p a = q a := h a (by simp)
    have ht := takeWhile_congruence p q t (fun b hb => h b (by simp [hb]))
    cases hq : q a with
    | true =>
      rw [List.takeWhile_cons, List.takeWhile_cons, hq, ha, hq, ht]
    | false =>
      rw [List.takeWhile_cons, List.takeWhile_cons, hq, ha, hq]
      simp [ht]

/-- When every diff origin is present, the loop of
`updateAuthorizedAccounts` does not throw. -/
theorem applyAuthDiff_ok :
    ∀ (diff : List (String × List String × Option (List String)))
      (urls : List (String × AuthUrlInfo)),
    (∀ e ∈ diff, (lookupA urls e.1).isSome) → (applyAuthDiff urls diff).2 = false
  | [], _ => fun _ => rfl
  | (u, accs, dids) :: rest, urls => fun h => by
    obtain ⟨v, hv⟩ := Option.isSome_iff_exists.mp (h (u, accs, dids) (by simp))
    have hrest : ∀ e ∈ rest,
        (lookupA (assignA urls u (fun info =>
          { info with authorizedAccounts := accs
                      authorizedDids := dids.getD info.authorizedDids })) e.1).isSome := by
      intro e he
      rw [lookupA_assignA_isSome]
      exact h e (by simp [he])
    have := applyAuthDiff_ok rest _ hrest
    simpa [applyAuthDiff, hv] using this

/-- When some diff origin is missing, the loop of
`updateAuthorizedAccounts` throws at the first missing origin, after having
applied exactly the preceding prefix of the diff in memory. -/
theorem applyAuthDiff_stops :
    ∀ (diff : List (String × List String × Option (List String)))
      (urls : List (String × AuthUrlInfo)),
    (∃ e ∈ diff, lookupA urls e.1 = none) →
    applyAuthDiff urls diff =
      ((applyAuthDiff urls
        (diff.takeWhile (fun e => (lookupA urls e.1).isSome))).1, true)
  | [], urls => by
    rintro ⟨e, he, -⟩
    exact absurd he (List.not_mem_nil e)
  | (u, accs, dids) :: rest, urls => by
    intro hbad
    cases hu : lookupA urls u with
    | none =>
      have hhd : ((u, accs, dids) :: rest).takeWhile
          (fun e => (lookupA urls e.1).isSome) = [] := by
        rw [List.takeWhile_cons]
        simp [hu]
      rw [hhd]
      simp [applyAuthDiff, hu]
    | some v =>
      have hbad2 : ∃ e ∈ rest,
          lookupA (assignA urls u (fun info =>
            { info with authorizedAccounts := accs
                        authorizedDids := dids.getD info.authorizedDids })) e.1 = none := by
        obtain ⟨e, he, hnone⟩ := hbad
        rcases List.mem_cons.mp he with he0 | he2
        · exfalso
          rw [he0] at hnone
          simp only at hnone
          rw [hu] at hnone
          cases hnone
        · refine ⟨e, he2, ?_⟩
          rw [← Option.not_isSome_iff_eq_none, lookupA_assignA_isSome,
            Option.not_isSome_iff_eq_none]
          exact hnone
      have IH := applyAuthDiff_stops rest _ hbad2
      have hstep : applyAuthDiff urls ((u, accs, dids) :: rest) =
          applyAuthDiff (assignA urls u (fun info =>
            { info with authorizedAccounts := accs
                        authorizedDids := dids.getD info.authorizedDids })) rest := by
        simp [applyAuthDiff, hu]
      have hhd : ((u, accs, dids) :: rest).takeWhile
          (fun e => (lookupA urls e.1).isSome) =
          (u, accs, dids) :: rest.takeWhile (fun e => (lookupA urls e.1).isSome) := by
        rw [List.takeWhile_cons]
        simp [hu]
      have hcong : rest.takeWhile (fun e => (lookupA urls e.1).isSome) =
          rest.takeWhile (fun e =>
            (lookupA (assignA urls u (fun info =>
              { info with authorizedAccounts := accs
                          authorizedDids := dids.getD info.authorizedDids })) e.1).isSome) :=
        takeWhile_congruence _ _ rest
          (fun e _ => (lookupA_assignA_isSome urls u _ e.1).symm)
      have hstep2 : applyAuthDiff urls
          ((u, accs, dids) :: rest.takeWhile (fun e => (lookupA urls e.1).isSome)) =
          applyAuthDiff (assignA urls u (fun info =>
            { info with authorizedAccounts := accs
                        authorizedDids := dids.getD info.authorizedDids }))
            (rest.takeWhile (fun e => (lookupA urls e.1).isSome)) := by
        simp [applyAuthDiff, hu]
      rw [hstep, IH, hhd, hstep2, hcong]

/-- Claim C10: `updateAuthorizedAccounts` implicitly requires every diff
origin to have a store entry. If any diff entry names a missing origin, the
operation throws a raw TypeError (not a `NotFound` failure): the entries
before the first missing origin have already been mutated in memory, while
the durable copy of the authorization list is left unwritten. With every
origin present the operation completes without throwing. -/
theorem claim_C10_update_missing_origin_throws (s : State)
    (diff : List (String × List String × Option (List String)))
    (hbad : ∃ e ∈ diff, lookupA s.authUrls e.1 = none) :
    (updateAuthorizedAccounts s diff).2 = some .typeError ∧
    (updateAuthorizedAccounts s diff).1.storedAuthUrls = s.storedAuthUrls ∧
    (updateAuthorizedAccounts s diff).1.authUrls =
      (applyAuthDiff s.authUrls
        (diff.takeWhile (fun e => (lookupA s.authUrls e.1).isSome))).1 ∧
    ∀ diff2 : List (String × List String × Option (List String)),
      (∀ e ∈ diff2, (lookupA s.authUrls e.1).isSome) →
      (updateAuthorizedAccounts s diff2).2 = none := by
  have heq := applyAuthDiff_stops diff s.authUrls hbad
  refine ⟨?_, ?_, ?_, ?_⟩
  · unfold updateAuthorizedAccounts
    rw [heq]
  · unfold updateAuthorizedAccounts
    rw [heq]
  · unfold updateAuthorizedAccounts
    rw [heq]
  · intro diff2 h2
    have hok := applyAuthDiff_ok diff2 s.authUrls h2
    have heq2 : applyAuthDiff s.authUrls diff2 =
        ((applyAuthDiff s.authUrls diff2).1, false) := by rw [← hok]
    unfold updateAuthorizedAccounts
    rw [heq2]

/-- Witness for C10: a diff whose second origin is missing throws, mutates
`o1` in memory only, and a diff with only present origins succeeds. -/
theorem claim_C10_witness :
    (updateAuthorizedAccounts authState
        [("o1", ["X"], none), ("missing", ["Y"], none)]).2 = some .typeError ∧
    (updateAuthorizedAccounts authState
        [("o1", ["X"], none), ("missing", ["Y"], none)]).1.storedAuthUrls =
      authState.storedAuthUrls ∧
    (updateAuthorizedAccounts authState
        [("o1", ["X"], none), ("missing", ["Y"], none)]).1.authUrls =
      (applyAuthDiff authState.authUrls
        ([("o1", ["X"], none), ("missing", ["Y"], none)].takeWhile
          (fun e => (lookupA authState.authUrls e.1).isSome))).1 ∧
    (updateAuthorizedAccounts authState [("o1", ["Z"], none)]).2 = none := by
  obtain ⟨w1, w2, w3, w4⟩ := claim_C10_update_missing_origin_throws authState
    [("o1", ["X"], none), ("missing", ["Y"], none)]
    ⟨("missing", ["Y"], none), by decide, by decide⟩
  exact ⟨w1, w2, w3, w4 [("o1", ["Z"], none)] (by decide)⟩

/-! ### Claim C7 -/

theorem lookupA_mem (l : List (String × α)) (k : String) (v : α)
    (h : lookupA l k = some v) : (k, v) ∈ l := by
  unfold lookupA at h
  cases hf : l.find? (fun p => p.1 = k) with
  | none => rw [hf] at h; cases h
  | some q =>
    rw [hf] at h
    have hq : q.1 = k := by simpa using List.find?_some hf
    have hv : q.2 = v := by simpa using h
    have hmem := List.mem_of_find?_eq_some hf
    rw [← hq, ← hv]
    exact hmem

/-- Counterexample to claim C7 as stated: in `ceMap` both stored entries
belong to the family `polkadot` and `h1` has the strictly larger genesis
index, yet the reconciliation pass removes nothing — the superseded entry
`h1` stays in the metadata store because it is iterated after the best
entry. (Iterating the same two entries in the other order, `ceMapB`, does
remove `h1`, so the removal set also depends on iteration order.) -/
theorem claim_C7_counterexample :
    famName ceKnown "h0" = some "polkadot" ∧
    famName ceKnown "h1" = some "polkadot" ∧
    famIdx ceKnown "h0" = 0 ∧
    famIdx ceKnown "h1" = 1 ∧
    (extractMetadata ceKnown ceMap).1 = ceMap ∧
    (extractScan ceKnown ceMap).2 = [] ∧
    (extractScan ceKnown ceMapB).2 = ["h1"] :=
  ⟨by decide, by decide, by decide, by decide, by decide, by decide, by decide⟩

/-- One scan step preserves the invariant (under the no-collision side
condition, with `kv` the entry being processed). -/
theorem extractStep_invariant (ke : List (String × List String))
    (map processed : List (String × MetadataDef)) (kv : String × MetadataDef)
    (hNC : NoCollision ke map) (hmem : kv ∈ map) (hpre : ∀ p ∈ processed, p ∈ map)
    (defs : List (String × BestDef)) (removals : List String)
    (hinv : ScanInv ke processed defs removals) :
    ScanInv ke (processed ++ [kv]) (extractStep ke (defs, removals) kv).1
      (extractStep ke (defs, removals) kv).2 := by
  obtain ⟨h1, h2, h3⟩ := hinv
  cases hf : famLookup ke kv.2.genesisHash with
  | none =>
    have hfn : famName ke kv.2.genesisHash = none := by simp [famName, hf]
    have hres : extractStep ke (defs, removals) kv =
        (upsertA defs kv.1 { best := kv.2, index := 0, key := kv.1 }, removals) := by
      simp [extractStep, hf]
    rw [hres]
    refine ⟨?_, ?_, ?_⟩
    · intro name b hb
      by_cases hn : name = kv.1
      · subst hn
        rw [lookupA_upsertA_self] at hb
        injection hb with hb
        rw [← hb]
        exact ⟨List.mem_append_right _ (List.mem_singleton.mpr rfl),
          Or.inr ⟨hfn, rfl, rfl⟩⟩
      · rw [lookupA_upsertA_ne _ _ _ _ hn] at hb
        obtain ⟨hbmem, hbor⟩ := h1 name b hb
        exact ⟨List.mem_append_left _ hbmem, hbor⟩
    · intro p hp name hpn
      rcases List.mem_append.mp hp with hp1 | hp2
      · obtain ⟨b, hb, hb1, hb2, hb3, hb4⟩ := h2 p hp1 name hpn
        have hnn : name ≠ kv.1 := fun e => hNC kv hmem hfn p (hpre p hp1) (e ▸ hpn)
        refine ⟨b, ?_, hb1, hb2, List.mem_append_left _ hb3, hb4⟩
        rw [lookupA_upsertA_ne _ _ _ _ hnn]
        exact hb
      · have hpkv : p = kv := by simpa using hp2
        rw [hpkv, hfn] at hpn
        cases hpn
    · intro r hr
      obtain ⟨d, name, p2, hdm, hdn, hp2, hp2n, hlt⟩ := h3 r hr
      exact ⟨d, name, p2, List.mem_append_left _ hdm, hdn,
        List.mem_append_left _ hp2, hp2n, hlt⟩
  | some e =>
    obtain ⟨fName, hashes⟩ := e
    have hfs : famName ke kv.2.genesisHash = some fName := by simp [famName, hf]
    have hidx : famIdx ke kv.2.genesisHash =
        hashes.findIdx (fun x => x == kv.2.genesisHash) := by
      simp [famIdx, hf]
    cases hd : lookupA defs fName with
    | none =>
      have hres : extractStep ke (defs, removals) kv =
          (upsertA defs fName
            { best := kv.2, index := hashes.findIdx (fun x => x == kv.2.genesisHash)
              key := kv.1 }, removals) := by
        simp [extractStep, hf, hd]
      rw [hres]
      refine ⟨?_, ?_, ?_⟩
      · intro name b hb
        by_cases hn : name = fName
        · subst hn
          rw [lookupA_upsertA_self] at hb
          injection hb with hb
          rw [← hb]
          exact ⟨List.mem_append_right _ (List.mem_singleton.mpr rfl),
            Or.inl ⟨hfs, hidx.symm⟩⟩
        · rw [lookupA_upsertA_ne _ _ _ _ hn] at hb
          obtain ⟨hbmem, hbor⟩ := h1 name b hb
          exact ⟨List.mem_append_left _ hbmem, hbor⟩
      · intro p hp name hpn
        rcases List.mem_append.mp hp with hp1 | hp2
        · obtain ⟨b, hb, hb1, hb2, hb3, hb4⟩ := h2 p hp1 name hpn
          by_cases hn : name = fName
          · exfalso
            rw [hn, hd] at hb
            cases hb
          · refine ⟨b, ?_, hb1, hb2, List.mem_append_left _ hb3, hb4⟩
            rw [lookupA_upsertA_ne _ _ _ _ hn]
            exact hb
        · have hpkv : p = kv := by simpa using hp2
          rw [hpkv] at hpn
          rw [hfs] at hpn
          injection hpn with hpn
          rw [hpkv, ← hpn]
          refine ⟨⟨kv.2, hashes.findIdx (fun x => x == kv.2.genesisHash), kv.1⟩,
            lookupA_upsertA_self _ _ _, hfs, hidx.symm,
            List.mem_append_right _ (List.mem_singleton.mpr rfl), ?_⟩
          rw [hidx]
      · intro r hr
        obtain ⟨d, name, p2, hdm, hdn, hp2, hp2n, hlt⟩ := h3 r hr
        exact ⟨d, name, p2, List.mem_append_left _ hdm, hdn,
          List.mem_append_left _ hp2, hp2n, hlt⟩
    | some b0 =>
      obtain ⟨hb0mem, hb0or⟩ := h1 fName b0 hd
      have hb0known : famName ke b0.best.genesisHash = some fName ∧
          b0.index = famIdx ke b0.best.genesisHash := by
        rcases hb0or with h | ⟨hnone, hkey, -⟩
        · exact h
        · exact absurd (hkey ▸ hfs)
            (hNC (b0.key, b0.best) (hpre _ hb0mem) hnone kv hmem)
      by_cases hcmp : b0.index > hashes.findIdx (fun x => x == kv.2.genesisHash)
      · have hres : extractStep ke (defs, removals) kv =
            (upsertA defs fName
              { best := kv.2, index := hashes.findIdx (fun x => x == kv.2.genesisHash)
                key := kv.1 }, removals ++ [b0.key]) := by
          simp [extractStep, hf, hd, hcmp]
        rw [hres]
        refine ⟨?_, ?_, ?_⟩
        · intro name b hb
          by_cases hn : name = fName
          · subst hn
            rw [lookupA_upsertA_self] at hb
            injection hb with hb
            rw [← hb]
            exact ⟨List.mem_append_right _ (List.mem_singleton.mpr rfl),
              Or.inl ⟨hfs, hidx.symm⟩⟩
          · rw [lookupA_upsertA_ne _ _ _ _ hn] at hb
            obtain ⟨hbmem, hbor⟩ := h1 name b hb
            exact ⟨List.mem_append_left _ hbmem, hbor⟩
        · intro p hp name hpn
          rcases List.mem_append.mp hp with hp1 | hp2
          · obtain ⟨b, hb, hb1, hb2, hb3, hb4⟩ := h2 p hp1 name hpn
            by_cases hn : name = fName
            · subst hn
              rw [hd] at hb
              injection hb with hb
              refine ⟨⟨kv.2, hashes.findIdx (fun x => x == kv.2.genesisHash), kv.1⟩,
                lookupA_upsertA_self _ _ _, hfs, hidx.symm,
                List.mem_append_right _ (List.mem_singleton.mpr rfl), ?_⟩
              calc hashes.findIdx (fun x => x == kv.2.genesisHash)
                  ≤ b0.index := Nat.le_of_lt hcmp
                _ = b.index := by rw [hb]
                _ ≤ famIdx ke p.2.genesisHash := hb4
            · refine ⟨b, ?_, hb1, hb2, List.mem_append_left _ hb3, hb4⟩
              rw [lookupA_upsertA_ne _ _ _ _ hn]
              exact hb
          · have hpkv : p = kv := by simpa using hp2
            rw [hpkv] at hpn
            rw [hfs] at hpn
            injection hpn with hpn
            rw [hpkv, ← hpn]
            refine ⟨⟨kv.2, hashes.findIdx (fun x => x == kv.2.genesisHash), kv.1⟩,
              lookupA_upsertA_self _ _ _, hfs, hidx.symm,
              List.mem_append_right _ (List.mem_singleton.mpr rfl), ?_⟩
            rw [hidx]
        · intro r hr
          rcases List.mem_append.mp hr with hr1 | hr2
          · obtain ⟨d, name, p2, hdm, hdn, hp2, hp2n, hlt⟩ := h3 r hr1
            exact ⟨d, name, p2, List.mem_append_left _ hdm, hdn,
              List.mem_append_left _ hp2, hp2n, hlt⟩
          · have hrk : r = b0.key := by simpa using hr2
            refine ⟨b0.best, fName, kv, ?_, hb0known.1,
              List.mem_append_right _ (List.mem_singleton.mpr rfl), hfs, ?_⟩
            · rw [hrk]
              exact List.mem_append_left _ hb0mem
            · rw [hidx, ← hb0known.2]
              exact hcmp
      · have hres : extractStep ke (defs, removals) kv = (defs, removals) := by
          simp [extractStep, hf, hd, hcmp]
        rw [hres]
        refine ⟨?_, ?_, ?_⟩
        · intro name b hb
          obtain ⟨hbmem, hbor⟩ := h1 name b hb
          exact ⟨List.mem_append_left _ hbmem, hbor⟩
        · intro p hp name hpn
          rcases List.mem_append.mp hp with hp1 | hp2
          · obtain ⟨b, hb, hb1, hb2, hb3, hb4⟩ := h2 p hp1 name hpn
            exact ⟨b, hb, hb1, hb2, List.mem_append_left _ hb3, hb4⟩
          · have hpkv : p = kv := by simpa using hp2
            rw [hpkv] at hpn
            rw [hfs] at hpn
            injection hpn with hpn
            rw [hpkv, ← hpn]
            refine ⟨b0, hd, hb0known.1, hb0known.2,
              List.mem_append_left _ hb0mem, ?_⟩
            rw [hidx]
            exact Nat.le_of_not_lt hcmp
        · intro r hr
          obtain ⟨d, name, p2, hdm, hdn, hp2, hp2n, hlt⟩ := h3 r hr
          exact ⟨d, name, p2, List.mem_append_left _ hdm, hdn,
            List.mem_append_left _ hp2, hp2n, hlt⟩

/-- The whole scan establishes the invariant over the full stored map. -/
theorem extractScan_inv (ke : List (String × List String))
    (map : List (String × MetadataDef)) (hNC : NoCollision ke map) :
    ∀ (rest processed : List (String × MetadataDef)) (defs : List (String × BestDef))
      (removals : List String),
    processed ++ rest = map →
    ScanInv ke processed defs removals →
    ScanInv ke map (List.foldl (extractStep ke) (defs, removals) rest).1
      (List.foldl (extractStep ke) (defs, removals) rest).2
  | [], processed, defs, removals => by
    intro happ hinv
    rw [List.append_nil] at happ
    subst happ
    simpa using hinv
  | kv :: rest, processed, defs, removals => by
    intro happ hinv
    have hmem : kv ∈ map := by
      rw [← happ]
      exact List.mem_append_right _ (by simp)
    have hpre : ∀ p ∈ processed, p ∈ map := by
      intro p hp
      rw [← happ]
      exact List.mem_append_left _ hp
    have hstep := extractStep_invariant ke map processed kv hNC hmem hpre defs
      removals hinv
    have happ2 : (processed ++ [kv]) ++ rest = map := by
      rw [List.append_assoc]
      simpa using happ
    have hrec := extractScan_inv ke map hNC rest (processed ++ [kv])
      (extractStep ke (defs, removals) kv).1 (extractStep ke (defs, removals) kv).2
      happ2 hstep
    simpa [List.foldl_cons] using hrec

/-- Claim C7 (amended): assuming no unknown stored entry's key collides
with a known family name, the reconciliation pass registers via
`addMetadata`, for each known family with stored entries, one stored entry
of minimal genesis index for that family; and every key it removes from the
store names a stored entry strictly superseded by another stored entry of
the same family. It does not, however, remove every superseded entry: an
entry iterated after a lower-index family member survives in the store and
the removal set depends on iteration order (see the counterexample). -/
theorem claim_C7_amended (ke : List (String × List String))
    (map : List (String × MetadataDef)) (hNC : NoCollision ke map) :
    (∀ name p p2, p ∈ map → famName ke p.2.genesisHash = some name →
      p2 ∈ map → famName ke p2.2.genesisHash = some name →
      ∃ b, lookupA (extractScan ke map).1 name = some b ∧
        (b.key, b.best) ∈ map ∧
        famName ke b.best.genesisHash = some name ∧
        b.index = famIdx ke b.best.genesisHash ∧
        b.best ∈ (extractMetadata ke map).2 ∧
        b.index ≤ famIdx ke p2.2.genesisHash) ∧
    (∀ r ∈ (extractScan ke map).2, ∃ d name p2, (r, d) ∈ map ∧
      famName ke d.genesisHash = some name ∧
      p2 ∈ map ∧ famName ke p2.2.genesisHash = some name ∧
      famIdx ke p2.2.genesisHash < famIdx ke d.genesisHash) := by
  have hinv0 : ScanInv ke [] [] [] := by
    refine ⟨?_, ?_, ?_⟩
    · intro name b hb
      simp [lookupA] at hb
    · intro p hp
      exact absurd hp (List.not_mem_nil p)
    · intro r hr
      exact absurd hr (List.not_mem_nil r)
  have hfin := extractScan_inv ke map hNC map [] [] [] (by simp) hinv0
  obtain ⟨f1, f2, f3⟩ := hfin
  constructor
  · intro name p p2 hp hpn hp2 hp2n
    obtain ⟨b, hb, hb1, hb2, hb3, -⟩ := f2 p hp name hpn
    obtain ⟨b', hb', -, -, -, hb4⟩ := f2 p2 hp2 name hp2n
    rw [hb] at hb'
    injection hb' with hb'
    refine ⟨b, hb, hb3, hb1, hb2, ?_, ?_⟩
    · have hbmem := lookupA_mem _ _ _ hb
      exact List.mem_map.mpr ⟨(name, b), hbmem, rfl⟩
    · rw [hb']
      exact hb4
  · exact fun r hr => f3 r hr

/-- Witness for the amended C7 at `ceMapB` (superseded entry first): the
family binding is the minimal-index `h0` definition and the single removal
`h1` is strictly superseded. -/
theorem claim_C7_amended_witness :
    (∃ b, lookupA (extractScan ceKnown ceMapB).1 "polkadot" = some b ∧
      (b.key, b.best) ∈ ceMapB ∧
      famName ceKnown b.best.genesisHash = some "polkadot" ∧
      b.index = famIdx ceKnown b.best.genesisHash ∧
      b.best ∈ (extractMetadata ceKnown ceMapB).2 ∧
      b.index ≤ famIdx ceKnown "h1") ∧
    (∃ d name p2, ("h1", d) ∈ ceMapB ∧
      famName ceKnown d.genesisHash = some name ∧
      p2 ∈ ceMapB ∧ famName ceKnown p2.2.genesisHash = some name ∧
      famIdx ceKnown p2.2.genesisHash < famIdx ceKnown d.genesisHash) := by
  obtain ⟨A, B⟩ := claim_C7_amended ceKnown ceMapB (by unfold NoCollision; decide)
  exact ⟨A "polkadot" ("h0", { genesisHash := "h0", specVersion := 5 })
      ("h1", { genesisHash := "h1", specVersion := 4 }) (by decide) (by decide)
      (by decide) (by decide),
    B "h1" (by decide)⟩

/-! ### Reachability invariant of the authorize tables

`AuthInv` is the reachability invariant of the authorize tables: every
pending request is filed under the normalized origin of its url, origins of
pending requests are pairwise distinct, and no pending origin has a store
entry. It holds of the startup state (no pending requests) and is preserved
by every operation that touches the authorize tables; the hypotheses of the
C4/C5/C6 theorems below are consequences of it. -/

/-- With the invariant, a stored origin has no pending request. -/
theorem authInv_no_pending_of_entry (s : State) (h : AuthInv s) (url : String)
    (info : AuthUrlInfo) (hentry : lookupA s.authUrls (stripUrlRaw url) = some info) :
    ∀ p ∈ s.authRequests, p.2.idStr ≠ stripUrlRaw url := by
  intro p hp e
  have := h.2.2 p hp
  rw [e, hentry] at this
  cases this

/-- With the invariant, at most one pending request exists per origin. -/
theorem authInv_at_most_one_per_origin (s : State) (h : AuthInv s) (id : String)
    (req : AuthRequest) (hq : lookupA s.authRequests id = some req) :
    ∀ p ∈ s.authRequests, p.2.idStr = stripUrlRaw req.url → p.1 = id := by
  intro p hp he
  have hreqmem : (id, req) ∈ s.authRequests := lookupA_mem _ _ _ hq
  have hreqid : req.idStr = stripUrlRaw req.url := h.1 (id, req) hreqmem
  by_cases hpe : p = (id, req)
  · rw [hpe]
  · exfalso
    have hsym : Symmetric (fun p q : String × AuthRequest => p.2.idStr ≠ q.2.idStr) :=
      fun _ _ hne e => hne e.symm
    have := (List.Pairwise.forall hsym h.2.1) hp hreqmem hpe
    exact this (by rw [he, hreqid])

theorem authInv_authorizeUrl (s : State) (url origin : String) (h : AuthInv s) :
    AuthInv (authorizeUrl s url origin).1 := by
  unfold authorizeUrl
  cases hs : stripUrl url with
  | error e => exact h
  | ok idStr =>
    by_cases hdup : s.authRequests.any (fun p => p.2.idStr = idStr)
    · simp only [hdup]
      exact h
    · simp only [hdup]
      cases he : lookupA s.authUrls idStr with
      | some info => exact h
      | none =>
        simp only [Bool.false_eq_true, if_false]
        have hstr : idStr = stripUrlRaw url := by
          unfold stripUrl at hs
          by_cases hv : url ≠ "" ∧ validScheme url
          · rw [if_pos hv] at hs
            injection hs with hs
            exact hs.symm
          · rw [if_neg hv] at hs
            cases hs
        refine ⟨?_, ?_, ?_⟩
        · intro p hp
          rcases List.mem_append.mp hp with hp1 | hp2
          · exact h.1 p hp1
          · have : p = (toString s.nextId,
                { id := toString s.nextId, idStr := idStr, origin := origin
                  url := url }) := by simpa using hp2
            rw [this, hstr]
        · rw [List.pairwise_append]
          refine ⟨h.2.1, List.pairwise_singleton _ _, ?_⟩
          intro p hp q hq
          have hqe : q = (toString s.nextId,
              { id := toString s.nextId, idStr := idStr, origin := origin
                url := url }) := by simpa using hq
          rw [hqe]
          intro e
          apply hdup
          rw [List.any_eq_true]
          exact ⟨p, hp, by simpa using e⟩
        · intro p hp
          rcases List.mem_append.mp hp with hp1 | hp2
          · exact h.2.2 p hp1
          · have : p = (toString s.nextId,
                { id := toString s.nextId, idStr := idStr, origin := origin
                  url := url }) := by simpa using hp2
            rw [this]
            exact he

theorem authInv_authComplete (s : State) (id : String) (accs dids : List String)
    (h : AuthInv s) : AuthInv (authComplete s id accs dids).1 := by
  cases hq : lookupA s.authRequests id with
  | none =>
    unfold authComplete
    rw [hq]
    exact h
  | some req =>
    rw [authComplete_spec s id req accs dids hq]
    have hreqmem : (id, req) ∈ s.authRequests := lookupA_mem _ _ _ hq
    refine ⟨?_, ?_, ?_⟩
    · intro p hp
      exact h.1 p ((mem_eraseA _ _ _).mp hp).1
    · exact List.Pairwise.filter _ h.2.1
    · intro p hp
      obtain ⟨hp1, hpne⟩ := (mem_eraseA _ _ _).mp hp
      by_cases hk : p.2.idStr = stripUrlRaw req.url
      · exfalso
        have hpid := authInv_at_most_one_per_origin s h id req hq p hp1 hk
        exact hpne hpid
      · rw [lookupA_upsertA_ne _ _ _ _ hk]
        exact h.2.2 p hp1

theorem authInv_deleteAuthRequest (s : State) (id : String) (h : AuthInv s) :
    AuthInv (deleteAuthRequest s id) := by
  unfold deleteAuthRequest
  refine ⟨?_, ?_, ?_⟩
  · intro p hp
    exact h.1 p ((mem_eraseA _ _ _).mp hp).1
  · exact List.Pairwise.filter _ h.2.1
  · intro p hp
    exact h.2.2 p ((mem_eraseA _ _ _).mp hp).1

theorem authInv_removeAuthorization (s : State) (url : String) (h : AuthInv s) :
    AuthInv (removeAuthorization s url).1 := by
  unfold removeAuthorization
  cases he : lookupA s.authUrls url with
  | none => exact h
  | some info =>
    refine ⟨h.1, h.2.1, ?_⟩
    intro p hp
    by_cases hk : p.2.idStr = url
    · rw [hk]
      exact lookupA_eraseA_self _ _
    · rw [lookupA_eraseA_ne _ _ _ hk]
      exact h.2.2 p hp

theorem applyAuthDiff_lookup_isSome :
    ∀ (diff : List (String × List String × Option (List String)))
      (urls : List (String × AuthUrlInfo)) (k : String),
    (lookupA (applyAuthDiff urls diff).1 k).isSome = (lookupA urls k).isSome
  | [], _, _ => rfl
  | (u, accs, dids) :: rest, urls, k => by
    cases hu : lookupA urls u with
    | none => simp [applyAuthDiff, hu]
    | some v =>
      have hstep : applyAuthDiff urls ((u, accs, dids) :: rest) =
          applyAuthDiff (assignA urls u (fun info =>
            { info with authorizedAccounts := accs
                        authorizedDids := dids.getD info.authorizedDids })) rest := by
        simp [applyAuthDiff, hu]
      rw [hstep, applyAuthDiff_lookup_isSome rest _ k, lookupA_assignA_isSome]

theorem authInv_updateAuthorizedAccounts (s : State)
    (diff : List (String × List String × Option (List String))) (h : AuthInv s) :
    AuthInv (updateAuthorizedAccounts s diff).1 := by
  have hlift : ∀ p ∈ s.authRequests,
      lookupA (applyAuthDiff s.authUrls diff).1 p.2.idStr = none := by
    intro p hp
    rw [← Option.not_isSome_iff_eq_none, applyAuthDiff_lookup_isSome,
      Option.not_isSome_iff_eq_none]
    exact h.2.2 p hp
  unfold updateAuthorizedAccounts
  cases happ : applyAuthDiff s.authUrls diff with
  | mk urls threw =>
    cases threw with
    | true =>
      refine ⟨h.1, h.2.1, ?_⟩
      intro p hp
      have := hlift p hp
      rw [happ] at this
      exact this
    | false =>
      refine ⟨h.1, h.2.1, ?_⟩
      intro p hp
      have := hlift p hp
      rw [happ] at this
      exact this

theorem authInv_accountsForget (s : State) (address : String) (h : AuthInv s) :
    AuthInv (accountsForget s address).1 := by
  rw [accountsForget_spec s address]
  refine ⟨h.1, h.2.1, ?_⟩
  intro p hp
  rw [← Option.not_isSome_iff_eq_none, applyAuthDiff_lookup_isSome,
    Option.not_isSome_iff_eq_none]
  exact h.2.2 p hp

end QSB

